import Mathlib

/-!
# code-agent: the edit tool and the agent loop

A shallow embedding of `main.go`: the text-patch engine of `EditFile`
(with the parts of Go's `strings` and `unicode/utf8` packages it runs on),
the tool registry with `executeTool`, and one iteration of `Agent.Run`.

Go strings are byte sequences.  Library calls that leave the process
(`encoding/json`, `os`, `path`, `path/filepath`, go-git, the model transport)
are fields of an environment record, so every theorem holds for all of their
behaviours.
-/

set_option linter.unusedVariables false

/-- A Go `string` (and a `[]byte`): a sequence of bytes. -/
abbrev GoString := List UInt8

/-- The bytes of a string literal of the source (Go source text is UTF-8). -/
def go (s : String) : GoString := s.data.flatMap String.utf8EncodeChar

/-! ## unicode/utf8 -/

namespace utf8

def RuneSelf : UInt8 := 0x80
def locb : UInt8 := 0x80
def hicb : UInt8 := 0xBF
def xx : UInt8 := 0xF1
def as : UInt8 := 0xF0
def s1 : UInt8 := 0x02
def s2 : UInt8 := 0x13
def s3 : UInt8 := 0x03
def s4 : UInt8 := 0x23
def s5 : UInt8 := 0x34
def s6 : UInt8 := 0x04
def s7 : UInt8 := 0x44

/-- The table `first`: information about the first byte of a UTF-8 sequence. -/
def first (b : UInt8) : UInt8 :=
  if b < 0x80 then as
  else if b < 0xC2 then xx
  else if b < 0xE0 then s1
  else if b = 0xE0 then s2
  else if b < 0xED then s3
  else if b = 0xED then s4
  else if b < 0xF0 then s3
  else if b = 0xF0 then s5
  else if b < 0xF4 then s6
  else if b = 0xF4 then s7
  else xx

structure acceptRange where
  lo : UInt8
  hi : UInt8

/-- The table `acceptRanges`; entries past the fifth are zero in the source
(the array has sixteen slots). -/
def acceptRanges (i : Nat) : acceptRange :=
  match i with
  | 0 => ⟨locb, hicb⟩
  | 1 => ⟨0xA0, hicb⟩
  | 2 => ⟨locb, 0x9F⟩
  | 3 => ⟨0x90, hicb⟩
  | 4 => ⟨locb, 0x8F⟩
  | _ => ⟨0, 0⟩

/-- The size result of `utf8.DecodeRuneInString(s)`: the width in bytes of the
first rune of `s` (0 for the empty string, 1 for an invalid encoding).  The rune
value itself is dropped: `strings.Replace` only uses the width.
`s[k]` is `s.getD k 0`; every access is guarded by the length test as in Go. -/
def DecodeRuneInString (s : GoString) : Nat :=
  let n := s.length
  if n < 1 then 0 else
  let s0 := s.getD 0 0
  let x := first s0
  if x ≥ as then 1 else
  let sz := x.toNat % 8
  let accept := acceptRanges (x.toNat / 16)
  if n < sz then 1 else
  let c1 := s.getD 1 0
  if c1 < accept.lo ∨ accept.hi < c1 then 1 else
  if sz ≤ 2 then 2 else
  let c2 := s.getD 2 0
  if c2 < locb ∨ hicb < c2 then 1 else
  if sz ≤ 3 then 3 else
  let c3 := s.getD 3 0
  if c3 < locb ∨ hicb < c3 then 1 else 4

/-- The loop of `utf8.RuneCountInString`: `i` is the byte index, `n` the count;
the first argument bounds the number of iterations (each advances `i`). -/
def runeCountLoop (s : GoString) : Nat → Nat → Nat → Nat
  | 0, _, n => n
  | fuel + 1, i, n =>
    let ns := s.length
    if ¬ i < ns then n else
    let c := s.getD i 0
    if c < RuneSelf then runeCountLoop s fuel (i + 1) (n + 1) else
    let x := first c
    if x = xx then runeCountLoop s fuel (i + 1) (n + 1) else
    let size := x.toNat % 8
    if i + size > ns then runeCountLoop s fuel (i + 1) (n + 1) else
    let accept := acceptRanges (x.toNat / 16)
    let c1 := s.getD (i + 1) 0
    let size :=
      if c1 < accept.lo ∨ accept.hi < c1 then 1
      else if size = 2 then size
      else if s.getD (i + 2) 0 < locb ∨ hicb < s.getD (i + 2) 0 then 1
      else if size = 3 then size
      else if s.getD (i + 3) 0 < locb ∨ hicb < s.getD (i + 3) 0 then 1
      else size
    runeCountLoop s fuel (i + size) (n + 1)

/-- Model of `utf8.RuneCountInString`. -/
def RuneCountInString (s : GoString) : Nat :=
  runeCountLoop s s.length 0 0

end utf8

/-! ## strings -/

namespace strings

/-- Model of `strings.HasPrefix`. -/
def HasPrefix (s pfx : GoString) : Bool :=
  decide (pfx.length ≤ s.length) && decide (s.take pfx.length = pfx)

/-- Scan for the first instance of `substr`, `i` being the index of the head
of the remaining text. -/
def indexFrom (substr : GoString) : GoString → Nat → Int
  | [], i => if substr = [] then (i : Int) else -1
  | c :: t, i => if HasPrefix (c :: t) substr then (i : Int) else indexFrom substr t (i + 1)

/-- Model of `strings.Index`: the index of the first instance of `substr` in
`s`, or -1 if `substr` is not present in `s`. -/
def Index (s substr : GoString) : Int :=
  indexFrom substr s 0

/-- The general loop of `strings.Count`; the first argument bounds the number
of iterations. -/
def countLoop (substr : GoString) : Nat → GoString → Nat → Nat
  | 0, _, n => n
  | fuel + 1, s, n =>
    let i := Index s substr
    if i = -1 then n
    else countLoop substr fuel (s.drop (i.toNat + substr.length)) (n + 1)

/-- Model of `strings.Count`. -/
def Count (s substr : GoString) : Nat :=
  if substr.length = 0 then utf8.RuneCountInString s + 1
  else if substr.length = 1 then s.count (substr.getD 0 0)
  else countLoop substr (s.length + 1) s 0

/-- The replacement loop of `strings.Replace`: `k` iterations remain, `i` is
the loop counter, `start` the read position and `b` the builder. -/
def replaceLoop (s old new : GoString) : Nat → Nat → Nat → GoString → GoString
  | 0, _, start, b => b ++ s.drop start
  | k + 1, i, start, b =>
    let j :=
      if old.length = 0 then
        if i > 0 then start + utf8.DecodeRuneInString (s.drop start) else start
      else start + (Index (s.drop start) old).toNat
    replaceLoop s old new k (i + 1) (j + old.length)
      (b ++ (s.drop start).take (j - start) ++ new)

/-- Model of `strings.Replace`. -/
def Replace (s old new : GoString) (n : Int) : GoString :=
  if old = new ∨ n = 0 then s else
  let m := Count s old
  if m = 0 then s else
  let n := if n < 0 ∨ (m : Int) < n then m else n.toNat
  replaceLoop s old new n 0 0 []

end strings

/-! ## what the text-patch engine is to compute -/

namespace strings

/-- Scan `s` from the left (for at most the given number of steps): where
`old` starts, put `new` and resume after the instance; otherwise keep the byte. -/
def replaceAllFuel (old new : GoString) : Nat → GoString → GoString
  | 0, s => s
  | fuel + 1, s =>
    if HasPrefix s old then new ++ replaceAllFuel old new fuel (s.drop old.length)
    else
      match s with
      | [] => []
      | c :: t => c :: replaceAllFuel old new fuel t

/-- The text `s` with every non-overlapping instance of a non-empty `old`,
found left to right, replaced by `new`. -/
def replaceAll (s old new : GoString) : GoString :=
  replaceAllFuel old new s.length s

/-- The index of the first instance of `substr`, if there is one. -/
def find (substr : GoString) : GoString → Option Nat
  | [] => if substr = [] then some 0 else none
  | c :: t => if HasPrefix (c :: t) substr then some 0 else (find substr t).map (· + 1)

end strings

namespace utf8

/-- Cut `s` into its runes, each as wide as `DecodeRuneInString` reports. -/
def runesFuel : Nat → GoString → List GoString
  | 0, _ => []
  | fuel + 1, s =>
    if s = [] then []
    else s.take (DecodeRuneInString s) :: runesFuel fuel (s.drop (DecodeRuneInString s))

/-- The runes (UTF-8 sequences, an invalid byte counting as one) of `s`. -/
def runes (s : GoString) : List GoString :=
  runesFuel s.length s

end utf8

/-! ## errors -/

/-- An error value made inside a library (`os`, `encoding/json`, `path/filepath`,
go-git): its message and whether it reports that a file does not exist, or
the value `git.NoErrAlreadyUpToDate`. -/
inductive LibError where
  | failure (msg : GoString) (notExist : Bool)
  | NoErrAlreadyUpToDate
  deriving DecidableEq

/-- A Go `error` value: made by `fmt.Errorf` without a verb, made by
`fmt.Errorf` with a final `%w`, or handed over by a library. -/
inductive GoError where
  | errorf (msg : GoString)
  | wrapf (pfx : GoString) (err : GoError)
  | lib (err : LibError)
  deriving DecidableEq

def LibError.Error : LibError → GoString
  | .failure msg _ => msg
  | .NoErrAlreadyUpToDate => go "already up-to-date"

/-- The method `Error()`. -/
def GoError.Error : GoError → GoString
  | .errorf msg => msg
  | .wrapf pfx err => pfx ++ err.Error
  | .lib err => err.Error

namespace os

/-- Model of `os.IsNotExist`: it looks at the error itself, not through `%w`. -/
def IsNotExist : GoError → Bool
  | .lib (.failure _ notExist) => notExist
  | _ => false

end os

/-! ## the environment -/

/-- A `json.RawMessage`. -/
abbrev RawMessage := GoString

/-- One call of the callback of `filepath.Walk`. -/
structure WalkEntry where
  path : GoString
  isDir : Bool
  err : Option LibError

/-- The library calls of `main.go`, over a world `W` (file system, repository,
network), a repository handle `R` and a worktree handle `T`.  A call that can
change the world returns the new world, also when it reports an error. -/
structure Env (W R T : Type) where
  /-- The call `json.Unmarshal(input, &v)` for a struct `v` whose fields are
  strings with the given JSON names: the value of each field afterwards. -/
  Unmarshal : RawMessage → List GoString → Except LibError (GoString → GoString)
  /-- The call `json.Marshal(files)`. -/
  Marshal : List GoString → Except LibError GoString
  ReadFile : GoString → W → Except LibError GoString
  WriteFile : GoString → GoString → Nat → W → Option LibError × W
  MkdirAll : GoString → Nat → W → Option LibError × W
  Stat : GoString → W → Option LibError
  RemoveAll : GoString → W → Option LibError × W
  /-- The function `path.Dir`. -/
  Dir : GoString → GoString
  /-- The calls `filepath.Walk` makes to its callback, in order, as long as
  the callback returns nil. -/
  Walk : GoString → W → List WalkEntry
  /-- The function `filepath.Rel`. -/
  Rel : GoString → GoString → Except LibError GoString
  PlainOpen : GoString → W → Except LibError R
  Worktree : R → W → Except LibError T
  /-- The call `worktree.Status()` followed by `status.String()`. -/
  Status : T → W → Except LibError GoString
  AddWithOptions : T → GoString → W → Option LibError × W
  /-- The call `worktree.Commit` with the fixed author, then `commit.String()`. -/
  Commit : T → GoString → W → Except LibError GoString × W
  Push : R → W → Option LibError × W
  Pull : T → W → Option LibError × W

/-- What a call of an executor does: it returns `(string, error)` and leaves a
world, or it panics. -/
inductive Outcome (W : Type) where
  | ret (val : Except GoError GoString) (w : W)
  | panic (v : GoError)

/-! ## tool inputs -/

structure ReadFileInput where
  Path : GoString

structure ListFilesInput where
  Path : GoString

structure EditFileInput where
  Path : GoString
  OldStr : GoString
  NewStr : GoString

structure MakeDirInput where
  Path : GoString

structure DeleteDirInput where
  Path : GoString

structure GitAddInput where
  Path : GoString

structure GitCommitInput where
  Message : GoString

section tools

variable {W R T : Type}

/-- The JSON names of the fields of `EditFileInput`. -/
def EditFileInput.tags : List GoString := [go "path", go "old_str", go "new_str"]

/-- The call `json.Unmarshal(input, &editFileInput)`. -/
def EditFileInput.unmarshal (env : Env W R T) (input : RawMessage) :
    Except GoError EditFileInput :=
  match env.Unmarshal input EditFileInput.tags with
  | .error err => .error (.lib err)
  | .ok v => .ok ⟨v (go "path"), v (go "old_str"), v (go "new_str")⟩

/-- The call `json.Unmarshal(input, &v)` for the inputs with the one field `path`. -/
def unmarshalPath (env : Env W R T) (input : RawMessage) : Except GoError GoString :=
  match env.Unmarshal input [go "path"] with
  | .error err => .error (.lib err)
  | .ok v => .ok (v (go "path"))

/-- The call `json.Unmarshal(input, &commitInput)`. -/
def GitCommitInput.unmarshal (env : Env W R T) (input : RawMessage) :
    Except GoError GitCommitInput :=
  match env.Unmarshal input [go "message"] with
  | .error err => .error (.lib err)
  | .ok v => .ok ⟨v (go "message")⟩

/-! ## the executors -/

def ReadFile (env : Env W R T) (input : RawMessage) (w : W) : Outcome W :=
  match unmarshalPath env input with
  | .error err => .panic err
  | .ok p =>
    let readFileInput : ReadFileInput := ⟨p⟩
    match env.ReadFile readFileInput.Path w with
    | .error err => .ret (.error (.lib err)) w
    | .ok content => .ret (.ok content) w

/-- The callback of `filepath.Walk` in `ListFiles`, run over the entries:
the collected `files`, or the error that stops the walk. -/
def walkFiles (env : Env W R T) (dir : GoString) :
    List WalkEntry → List GoString → Except GoError (List GoString)
  | [], files => .ok files
  | e :: rest, files =>
    match e.err with
    | some err => .error (.lib err)
    | none =>
      match env.Rel dir e.path with
      | .error err => .error (.lib err)
      | .ok relPath =>
        if relPath ≠ go "." then
          if e.isDir then walkFiles env dir rest (files ++ [relPath ++ go "/"])
          else walkFiles env dir rest (files ++ [relPath])
        else walkFiles env dir rest files

def ListFiles (env : Env W R T) (input : RawMessage) (w : W) : Outcome W :=
  match unmarshalPath env input with
  | .error err => .panic err
  | .ok p =>
    let listFilesInput : ListFilesInput := ⟨p⟩
    let dir := if listFilesInput.Path ≠ [] then listFilesInput.Path else go "."
    match walkFiles env dir (env.Walk dir w) [] with
    | .error err => .ret (.error err) w
    | .ok files =>
      match env.Marshal files with
      | .error err => .ret (.error (.lib err)) w
      | .ok result => .ret (.ok result) w

def createNewFile (env : Env W R T) (filePath content : GoString) (w : W) : Outcome W :=
  let dir := env.Dir filePath
  match (if dir ≠ go "." then env.MkdirAll dir 0o755 w else (none, w)) with
  | (some err, w1) => .ret (.error (.wrapf (go "failed to create directory: ") (.lib err))) w1
  | (none, w1) =>
    match env.WriteFile filePath content 0o644 w1 with
    | (some err, w2) => .ret (.error (.wrapf (go "failed to create file: ") (.lib err))) w2
    | (none, w2) => .ret (.ok (go "Successfully created file " ++ filePath)) w2

def EditFile (env : Env W R T) (input : RawMessage) (w : W) : Outcome W :=
  match EditFileInput.unmarshal env input with
  | .error err => .ret (.error err) w
  | .ok editFileInput =>
    if editFileInput.Path = [] ∨ editFileInput.OldStr = editFileInput.NewStr then
      .ret (.error (.errorf (go "ivalid input parameters"))) w
    else
      match env.ReadFile editFileInput.Path w with
      | .error err =>
        if os.IsNotExist (.lib err) ∧ editFileInput.OldStr = [] then
          createNewFile env editFileInput.Path editFileInput.NewStr w
        else .ret (.error (.lib err)) w
      | .ok content =>
        let oldContent := content
        let newContent :=
          strings.Replace oldContent editFileInput.OldStr editFileInput.NewStr (-1)
        if oldContent = newContent ∧ editFileInput.OldStr ≠ [] then
          .ret (.error (.errorf (go "old_str not found in file"))) w
        else
          match env.WriteFile editFileInput.Path newContent 0o644 w with
          | (some err, w1) => .ret (.error (.lib err)) w1
          | (none, w1) => .ret (.ok (go "OK")) w1

def MakeDir (env : Env W R T) (input : RawMessage) (w : W) : Outcome W :=
  match unmarshalPath env input with
  | .error err => .ret (.error err) w
  | .ok p =>
    let makeDirInput : MakeDirInput := ⟨p⟩
    if makeDirInput.Path = [] then .ret (.error (.errorf (go "path cannot be empty"))) w
    else
      match env.MkdirAll makeDirInput.Path 0o755 w with
      | (some err, w1) => .ret (.error (.wrapf (go "failed to create directory: ") (.lib err))) w1
      | (none, w1) =>
        .ret (.ok (go "Successfully created directory " ++ makeDirInput.Path)) w1

def DeleteDir (env : Env W R T) (input : RawMessage) (w : W) : Outcome W :=
  match unmarshalPath env input with
  | .error err => .ret (.error err) w
  | .ok p =>
    let deleteDirInput : DeleteDirInput := ⟨p⟩
    if deleteDirInput.Path = [] then .ret (.error (.errorf (go "path cannot be empty"))) w
    else
      match env.Stat deleteDirInput.Path w with
      | some err =>
        if os.IsNotExist (.lib err) then
          .ret (.error (.errorf (go "directory does not exist: " ++ deleteDirInput.Path))) w
        else .ret (.error (.wrapf (go "error checking directory: ") (.lib err))) w
      | none =>
        match env.RemoveAll deleteDirInput.Path w with
        | (some err, w1) => .ret (.error (.wrapf (go "failed to delete directory: ") (.lib err))) w1
        | (none, w1) =>
          .ret (.ok (go "Successfully deleted directory " ++ deleteDirInput.Path
            ++ go " and all its contents")) w1

def GitStatus (env : Env W R T) (input : RawMessage) (w : W) : Outcome W :=
  match env.PlainOpen (go ".") w with
  | .error err => .ret (.error (.wrapf (go "failed to open repository: ") (.lib err))) w
  | .ok repo =>
    match env.Worktree repo w with
    | .error err => .ret (.error (.wrapf (go "failed to get worktree: ") (.lib err))) w
    | .ok worktree =>
      match env.Status worktree w with
      | .error err => .ret (.error (.wrapf (go "failed to get status: ") (.lib err))) w
      | .ok status => .ret (.ok status) w

def GitAdd (env : Env W R T) (input : RawMessage) (w : W) : Outcome W :=
  match unmarshalPath env input with
  | .error err => .ret (.error err) w
  | .ok p =>
    let addInput : GitAddInput := ⟨p⟩
    match env.PlainOpen (go ".") w with
    | .error err => .ret (.error (.wrapf (go "failed to open repository: ") (.lib err))) w
    | .ok repo =>
      match env.Worktree repo w with
      | .error err => .ret (.error (.wrapf (go "failed to get worktree: ") (.lib err))) w
      | .ok worktree =>
        match env.AddWithOptions worktree addInput.Path w with
        | (some err, w1) => .ret (.error (.wrapf (go "failed to add files: ") (.lib err))) w1
        | (none, w1) =>
          .ret (.ok (go "Successfully staged changes for: " ++ addInput.Path)) w1

def GitCommit (env : Env W R T) (input : RawMessage) (w : W) : Outcome W :=
  match GitCommitInput.unmarshal env input with
  | .error err => .ret (.error err) w
  | .ok commitInput =>
    match env.PlainOpen (go ".") w with
    | .error err => .ret (.error (.wrapf (go "failed to open repository: ") (.lib err))) w
    | .ok repo =>
      match env.Worktree repo w with
      | .error err => .ret (.error (.wrapf (go "failed to get worktree: ") (.lib err))) w
      | .ok worktree =>
        match env.Commit worktree commitInput.Message w with
        | (.error err, w1) => .ret (.error (.wrapf (go "failed to commit: ") (.lib err))) w1
        | (.ok commit, w1) =>
          .ret (.ok (go "Successfully created commit: " ++ commit)) w1

def GitPush (env : Env W R T) (input : RawMessage) (w : W) : Outcome W :=
  match env.PlainOpen (go ".") w with
  | .error err => .ret (.error (.wrapf (go "failed to open repository: ") (.lib err))) w
  | .ok repo =>
    match env.Push repo w with
    | (some err, w1) =>
      if err = LibError.NoErrAlreadyUpToDate then .ret (.ok (go "Everything up-to-date")) w1
      else .ret (.error (.wrapf (go "failed to push: ") (.lib err))) w1
    | (none, w1) => .ret (.ok (go "Successfully pushed changes to remote")) w1

def GitPull (env : Env W R T) (input : RawMessage) (w : W) : Outcome W :=
  match env.PlainOpen (go ".") w with
  | .error err => .ret (.error (.wrapf (go "failed to open repository: ") (.lib err))) w
  | .ok repo =>
    match env.Worktree repo w with
    | .error err => .ret (.error (.wrapf (go "failed to get worktree: ") (.lib err))) w
    | .ok worktree =>
      match env.Pull worktree w with
      | (some err, w1) =>
        if err = LibError.NoErrAlreadyUpToDate then .ret (.ok (go "Already up-to-date")) w1
        else .ret (.error (.wrapf (go "failed to pull: ") (.lib err))) w1
      | (none, w1) => .ret (.ok (go "Successfully pulled changes from remote")) w1

end tools

/-! ## the agent -/

/-- A content block of a model reply (`anthropic.ContentBlockUnion`): the
fields `Run` reads. -/
structure ContentBlock where
  Type_ : GoString
  Text : GoString
  ID : GoString
  Name : GoString
  Input : RawMessage
  deriving DecidableEq

/-- A content block of a request (`anthropic.ContentBlockParamUnion`). -/
inductive ContentBlockParam where
  | text (text : GoString)
  | toolUse (id name : GoString) (input : RawMessage)
  | toolResult (toolUseID content : GoString) (isError : Bool)
  | other (block : ContentBlock)
  deriving DecidableEq

inductive Role where
  | user
  | assistant
  deriving DecidableEq

/-- A turn of the transcript (`anthropic.MessageParam`). -/
structure MessageParam where
  Role : Role
  Content : List ContentBlockParam
  deriving DecidableEq

/-- A model reply (`anthropic.Message`). -/
structure Message where
  Content : List ContentBlock
  deriving DecidableEq

def NewTextBlock (text : GoString) : ContentBlockParam := .text text

def NewToolResultBlock (toolUseID content : GoString) (isError : Bool) : ContentBlockParam :=
  .toolResult toolUseID content isError

def NewUserMessage (blocks : List ContentBlockParam) : MessageParam := ⟨.user, blocks⟩

/-- The method `ContentBlockUnion.ToParam`. -/
def ContentBlock.ToParam (c : ContentBlock) : ContentBlockParam :=
  if c.Type_ = go "text" then .text c.Text
  else if c.Type_ = go "tool_use" then .toolUse c.ID c.Name c.Input
  else .other c

/-- The method `Message.ToParam`. -/
def Message.ToParam (m : Message) : MessageParam :=
  ⟨.assistant, m.Content.map ContentBlock.ToParam⟩

/-- What the process does that can be seen from outside, in order. -/
inductive Event where
  | print (text : GoString)
  | getUserMessage
  | transport (conversation : List MessageParam)
  deriving DecidableEq

structure ToolDefinition (W : Type) where
  Name : GoString
  Description : GoString
  /-- The property names of the input schema. -/
  InputSchema : List GoString
  Function : RawMessage → W → Outcome W

/-- An `anthropic.ToolParam`, as `runInterface` fills it. -/
structure ToolParam where
  Name : GoString
  Description : GoString
  InputSchema : List GoString

/-- The agent over a world `W` and a state `I` of the input source.  `client`
is the call `client.Messages.New` with the fixed model and token budget. -/
structure Agent (W I : Type) where
  client : List MessageParam → List ToolParam → W → Except LibError Message × W
  getUserMessage : I → (GoString × Bool) × I
  tools : List (ToolDefinition W)

section agent

variable {W I : Type}

def NewAgent (client : List MessageParam → List ToolParam → W → Except LibError Message × W)
    (getUserMessage : I → (GoString × Bool) × I) (tools : List (ToolDefinition W)) :
    Agent W I :=
  { client := client, getUserMessage := getUserMessage, tools := tools }

/-- The lookup loop of `executeTool`: the first tool whose `Name` is `name`. -/
def findTool (name : GoString) : List (ToolDefinition W) → Option (ToolDefinition W)
  | [] => none
  | tool :: rest => if tool.Name = name then some tool else findTool name rest

/-- What a call of `executeTool` does: having printed `out`, it returns a block
and leaves a world, or it panics. -/
inductive Executed (W : Type) where
  | done (result : ContentBlockParam) (w : W) (out : List Event)
  | panic (v : GoError) (out : List Event)

def Agent.executeTool (a : Agent W I) (id name : GoString) (input : RawMessage) (w : W) :
    Executed W :=
  match findTool name a.tools with
  | none => .done (NewToolResultBlock id (go "tool not found") true) w []
  | some toolDef =>
    let out := [Event.print (go "\x1b[92mtool\x1b[0m: " ++ name ++ go "(" ++ input ++ go ")\n")]
    match toolDef.Function input w with
    | .panic v => .panic v out
    | .ret (.error err) w1 => .done (NewToolResultBlock id err.Error true) w1 out
    | .ret (.ok response) w1 => .done (NewToolResultBlock id response false) w1 out

def Agent.runInterface (a : Agent W I) (conversation : List MessageParam) (w : W) :
    Except LibError Message × W :=
  let anthropicTools := a.tools.map (fun tool =>
    ({ Name := tool.Name, Description := tool.Description,
       InputSchema := tool.InputSchema } : ToolParam))
  a.client conversation anthropicTools w

/-- The state of `Run` at the head of its loop, with the world, the input
source and what has been printed and called so far. -/
structure RunState (W I : Type) where
  conversation : List MessageParam
  readUserInput : Bool
  input : I
  world : W
  out : List Event

/-- The inner loop of `Run` over `message.Content`: the tool results, or the
panic of an executor; in both cases with what has been printed. -/
def Agent.dispatch (a : Agent W I) :
    List ContentBlock → List ContentBlockParam → W → List Event →
      Except (GoError × List Event) (List ContentBlockParam × W × List Event)
  | [], toolResults, w, out => .ok (toolResults, w, out)
  | content :: rest, toolResults, w, out =>
    if content.Type_ = go "text" then
      a.dispatch rest toolResults w
        (out ++ [Event.print (go "\x1b[93mClaude\x1b[0m: " ++ content.Text ++ go "\n")])
    else if content.Type_ = go "tool_use" then
      match a.executeTool content.ID content.Name content.Input w with
      | .panic v out1 => .error (v, out ++ out1)
      | .done result w1 out1 => a.dispatch rest (toolResults ++ [result]) w1 (out ++ out1)
    else a.dispatch rest toolResults w out

/-- How one pass through the loop of `Run` ends. -/
inductive Step (W I : Type) where
  | next (s : RunState W I)
  | returned (err : Option GoError) (s : RunState W I)
  | panicked (v : GoError) (out : List Event)

/-- What has been printed and called when the pass ends. -/
def Step.out : Step W I → List Event
  | .next s => s.out
  | .returned _ s => s.out
  | .panicked _ out => out

/-- The first part of the loop body of `Run`: the conversation, input source
and output before the transport call, or `none` at the end of the input. -/
def Agent.acquire (a : Agent W I) (s : RunState W I) :
    Option (List MessageParam × I) × List Event :=
  if s.readUserInput then
    let out := s.out ++ [Event.print (go "\x1b[94mYou\x1b[0m: "), Event.getUserMessage]
    match a.getUserMessage s.input with
    | ((userInput, ok), input1) =>
      if !ok then (none, out)
      else
        let userMessage := NewUserMessage [NewTextBlock userInput]
        (some (s.conversation ++ [userMessage], input1), out)
  else (some (s.conversation, s.input), s.out)

/-- One pass through the loop body of `Run`. -/
def Agent.iteration (a : Agent W I) (s : RunState W I) : Step W I :=
  match a.acquire s with
  | (none, out) => .returned none { s with out := out }
  | (some (conversation, input), out) =>
    let out := out ++ [Event.transport conversation]
    match a.runInterface conversation s.world with
    | (.error err, w1) =>
      .returned (some (.lib err))
        { conversation := conversation, readUserInput := s.readUserInput, input := input,
          world := w1, out := out }
    | (.ok message, w1) =>
      let conversation := conversation ++ [message.ToParam]
      match a.dispatch message.Content [] w1 out with
      | .error (v, out2) => .panicked v out2
      | .ok (toolResults, w2, out2) =>
        if toolResults.length = 0 then
          .next { conversation := conversation, readUserInput := true, input := input,
                  world := w2, out := out2 }
        else
          .next { conversation := conversation ++ [NewUserMessage toolResults],
                  readUserInput := false, input := input, world := w2, out := out2 }

/-- The state in which `Run` enters its loop. -/
def Agent.start (a : Agent W I) (input : I) (w : W) : RunState W I :=
  { conversation := [], readUserInput := true, input := input, world := w,
    out := [Event.print (go "Chat with Claude (use 'ctrl-c' to quit)\n")] }

/-- The loop of `Run`, for at most the given number of passes: how `Run` ends,
or `none` when it is still running. -/
def Agent.loop (a : Agent W I) : Nat → RunState W I → Option (Step W I)
  | 0, _ => none
  | fuel + 1, s =>
    match a.iteration s with
    | .next s1 => a.loop fuel s1
    | r => some r

def Agent.Run (a : Agent W I) (fuel : Nat) (input : I) (w : W) : Option (Step W I) :=
  a.loop fuel (a.start input w)

/-- The events of the pass that starts in `s`, up to its transport call. -/
def Agent.opening (a : Agent W I) (s : RunState W I) : List Event :=
  match a.acquire s with
  | (none, out) => out.drop s.out.length
  | (some (conversation, _), out) => (out ++ [Event.transport conversation]).drop s.out.length

/-- The conversation the pass that starts in `s` sends to the model, if it
gets that far. -/
def Agent.request (a : Agent W I) (s : RunState W I) : Option (List MessageParam) :=
  match a.acquire s with
  | (none, _) => none
  | (some (conversation, _), _) => some conversation

/-- The model turn the pass that starts in `s` receives, if any. -/
def Agent.reply (a : Agent W I) (s : RunState W I) : Option Message :=
  match a.request s with
  | none => none
  | some conversation =>
    match a.runInterface conversation s.world with
    | (.error _, _) => none
    | (.ok message, _) => some message

/-- The tool-use blocks of a model turn, in order. -/
def Message.toolUses (m : Message) : List ContentBlock :=
  m.Content.filter (fun c => c.Type_ = go "tool_use")

/-- The call id a tool-result block carries. -/
def ContentBlockParam.callID : ContentBlockParam → Option GoString
  | .toolResult toolUseID _ _ => some toolUseID
  | _ => none

end agent

section registry

variable {W R T : Type}

def ReadFileDefinition (env : Env W R T) : ToolDefinition W :=
  { Name := go "read_file",
    Description := go "Read the contents of a given relative file path. Use this when you want to see what's inside a file. Do not use this with directory names.",
    InputSchema := [go "path"],
    Function := ReadFile env }

def ListFilesDefinition (env : Env W R T) : ToolDefinition W :=
  { Name := go "list_files",
    Description := go "List files and directories at a given path. If no path is provided, lists files in the current directory.",
    InputSchema := [go "path"],
    Function := ListFiles env }

def EditFileDefinition (env : Env W R T) : ToolDefinition W :=
  { Name := go "edit_file",
    Description := go "Make edits to a text file.\n  Replaces 'old_str' with 'new_str' in the given file. 'old_str' and 'new_str' MUST be different from each other.\n  If the file specified with path doesn't exist, it will be created.",
    InputSchema := EditFileInput.tags,
    Function := EditFile env }

def MakeDirDefinition (env : Env W R T) : ToolDefinition W :=
  { Name := go "make_dir",
    Description := go "Creates a new directory at the specified path. If parent directories don't exist, they will be created as well.",
    InputSchema := [go "path"],
    Function := MakeDir env }

def DeleteDirDefinition (env : Env W R T) : ToolDefinition W :=
  { Name := go "delete_dir",
    Description := go "Deletes a directory and all its contents recursively. Use with caution as this operation cannot be undone.",
    InputSchema := [go "path"],
    Function := DeleteDir env }

def GitStatusDefinition (env : Env W R T) : ToolDefinition W :=
  { Name := go "git_status",
    Description := go "Show the working tree status, including staged, unstaged and untracked files",
    InputSchema := [],
    Function := GitStatus env }

def GitAddDefinition (env : Env W R T) : ToolDefinition W :=
  { Name := go "git_add",
    Description := go "Stage changes for commit",
    InputSchema := [go "path"],
    Function := GitAdd env }

def GitCommitDefinition (env : Env W R T) : ToolDefinition W :=
  { Name := go "git_commit",
    Description := go "Commit staged changes",
    InputSchema := [go "message"],
    Function := GitCommit env }

def GitPushDefinition (env : Env W R T) : ToolDefinition W :=
  { Name := go "git_push",
    Description := go "Push commits to remote repository",
    InputSchema := [],
    Function := GitPush env }

def GitPullDefinition (env : Env W R T) : ToolDefinition W :=
  { Name := go "git_pull",
    Description := go "Pull changes from remote repository",
    InputSchema := [],
    Function := GitPull env }

/-- The registry built in `main`. -/
def tools (env : Env W R T) : List (ToolDefinition W) :=
  [ReadFileDefinition env, ListFilesDefinition env, EditFileDefinition env,
   MakeDirDefinition env, DeleteDirDefinition env, GitStatusDefinition env,
   GitAddDefinition env, GitCommitDefinition env, GitPushDefinition env,
   GitPullDefinition env]

end registry

/-! ## a sample environment

An in-memory world on which the definitions above can be run: a flat table of
files, a list of directories and a write-protection switch; a JSON reader for
objects whose members are strings without escapes, which reports every other
input with the message of a truncated one; no repository. -/

namespace sample

structure World where
  files : List (GoString × GoString)
  dirs : List GoString
  readOnly : Bool
  deriving DecidableEq

/-- Drop leading blanks. -/
def skipWs : GoString → GoString
  | [] => []
  | c :: t => if c = 32 ∨ c = 9 ∨ c = 10 ∨ c = 13 then skipWs t else c :: t

/-- The characters of a string up to its closing quote, and what follows it. -/
def parseChars : GoString → Option (GoString × GoString)
  | [] => none
  | c :: t =>
    if c = 34 then some ([], t)
    else if c = 92 ∨ c < 32 then none
    else
      match parseChars t with
      | some (str, rest) => some (c :: str, rest)
      | none => none

/-- A string with its quotes, and what follows it. -/
def parseString : GoString → Option (GoString × GoString)
  | [] => none
  | c :: t => if c = 34 then parseChars t else none

/-- The members of an object after its opening brace. -/
def parseMembers : Nat → GoString → Option (List (GoString × GoString))
  | 0, _ => none
  | fuel + 1, text =>
    match parseString (skipWs text) with
    | none => none
    | some (key, r1) =>
      match skipWs r1 with
      | [] => none
      | c :: r2 =>
        if c ≠ 58 then none
        else
          match parseString (skipWs r2) with
          | none => none
          | some (value, r3) =>
            match skipWs r3 with
            | [] => none
            | d :: r4 =>
              if d = 44 then
                match parseMembers fuel r4 with
                | some members => some ((key, value) :: members)
                | none => none
              else if d = 125 ∧ skipWs r4 = [] then some [(key, value)]
              else none

/-- An object whose members are strings. -/
def parseObject (text : GoString) : Option (List (GoString × GoString)) :=
  match skipWs text with
  | [] => none
  | c :: r =>
    if c ≠ 123 then none
    else
      match skipWs r with
      | [] => none
      | d :: r1 =>
        if d = 125 then (if skipWs r1 = [] then some [] else none)
        else parseMembers text.length (d :: r1)

/-- The value of the last member named `tag`, or the empty string. -/
def field (members : List (GoString × GoString)) (tag : GoString) : GoString :=
  match members.reverse.lookup tag with
  | some value => value
  | none => []

def Unmarshal (input : RawMessage) (tags : List GoString) :
    Except LibError (GoString → GoString) :=
  match parseObject input with
  | none => .error (.failure (go "unexpected end of JSON input") false)
  | some members => .ok (fun tag => if tag ∈ tags then field members tag else [])

def ReadFile (name : GoString) (w : World) : Except LibError GoString :=
  match w.files.lookup name with
  | some content => .ok content
  | none => .error (.failure (go "open " ++ name ++ go ": no such file or directory") true)

def WriteFile (name data : GoString) (perm : Nat) (w : World) : Option LibError × World :=
  if w.readOnly then (some (.failure (go "open " ++ name ++ go ": permission denied") false), w)
  else (none, { w with files := (name, data) :: w.files.filter (fun f => f.1 ≠ name) })

def MkdirAll (name : GoString) (perm : Nat) (w : World) : Option LibError × World :=
  if w.readOnly then (some (.failure (go "mkdir " ++ name ++ go ": permission denied") false), w)
  else (none, { w with dirs := if name ∈ w.dirs then w.dirs else name :: w.dirs })

/-- The text before the last slash, or `.` when there is none (what `path.Dir`
gives for a clean relative path). -/
def Dir (name : GoString) : GoString :=
  match (name.reverse.dropWhile (fun c => c ≠ 47)).drop 1 with
  | [] => go "."
  | d => d.reverse

def noRepository : LibError := .failure (go "repository does not exist") false

def env : Env World Unit Unit :=
  { Unmarshal := Unmarshal,
    Marshal := fun _ => .ok (go "null"),
    ReadFile := ReadFile,
    WriteFile := WriteFile,
    MkdirAll := MkdirAll,
    Stat := fun name w =>
      if name ∈ w.dirs then none
      else some (.failure (go "stat " ++ name ++ go ": no such file or directory") true),
    RemoveAll := fun name w => (none, { w with dirs := w.dirs.filter (fun d => d ≠ name) }),
    Dir := Dir,
    Walk := fun _ _ => [],
    Rel := fun _ target => .ok target,
    PlainOpen := fun _ _ => .error noRepository,
    Worktree := fun _ _ => .error noRepository,
    Status := fun _ _ => .error noRepository,
    AddWithOptions := fun _ _ w => (some noRepository, w),
    Commit := fun _ _ w => (.error noRepository, w),
    Push := fun _ w => (some noRepository, w),
    Pull := fun _ w => (some noRepository, w) }

/-- A world with the one file `notes.txt`. -/
def world (content : GoString) : World :=
  { files := [(go "notes.txt", content)], dirs := [], readOnly := false }

/-- An `edit_file` payload. -/
def editPayload (file old new : String) : RawMessage :=
  go "\x7b\"path\":\"" ++ go file ++ go "\",\"old_str\":\"" ++ go old
    ++ go "\",\"new_str\":\"" ++ go new ++ go "\"\x7d"

/-- A world in which nothing can be written. -/
def locked (files : List (GoString × GoString)) : World :=
  { files := files, dirs := [], readOnly := true }

/-- A scripted model: on the first call it asks for two tools, one of them
unknown; afterwards it answers in text. -/
def client (conversation : List MessageParam) (tools : List ToolParam) (w : World) :
    Except LibError Message × World :=
  if conversation.length ≤ 1 then
    (.ok ⟨[⟨go "text", go "Let me look.", [], [], []⟩,
           ⟨go "tool_use", [], go "call_1", go "read_file", go "\x7b\"path\":\"notes.txt\"\x7d"⟩,
           ⟨go "tool_use", [], go "call_2", go "search", go "\x7b\"query\":\"notes\"\x7d"⟩]⟩, w)
  else (.ok ⟨[⟨go "text", go "Done.", [], [], []⟩]⟩, w)

/-- The closure of `main` over the scanner: the next line of the input, if any. -/
def getUserMessage : List GoString → (GoString × Bool) × List GoString
  | [] => (([], false), [])
  | line :: rest => ((line, true), rest)

def agent : Agent World (List GoString) :=
  NewAgent client getUserMessage (tools env)

/-- The state in which `Run` enters its loop, with two lines of input waiting. -/
def first : RunState World (List GoString) :=
  agent.start [go "what is in notes.txt?", go "thanks"] (world (go "ababab"))

/-- The state after the first pass. -/
def second : RunState World (List GoString) :=
  match agent.iteration first with
  | .next s => s
  | _ => first

/-- The state after the second pass. -/
def third : RunState World (List GoString) :=
  match agent.iteration second with
  | .next s => s
  | _ => second

end sample

/-! ## lemmas: strings.Replace for a non-empty old -/

namespace strings

theorem HasPrefix_iff (s pfx : GoString) : HasPrefix s pfx = true ↔ pfx <+: s := by
  unfold HasPrefix
  simp only [Bool.and_eq_true, decide_eq_true_eq]
  constructor
  · rintro ⟨_, h⟩
    rw [← h]
    exact List.take_prefix _ _
  · intro h
    refine ⟨h.length_le, ?_⟩
    exact List.prefix_iff_eq_take.mp h |>.symm

theorem HasPrefix_split {s pfx : GoString} (h : HasPrefix s pfx = true) :
    s = pfx ++ s.drop pfx.length := by
  obtain ⟨t, rfl⟩ := (HasPrefix_iff s pfx).mp h
  simp

theorem indexFrom_eq (substr s : GoString) (i : Nat) :
    indexFrom substr s i = match find substr s with
      | some j => ((i + j : Nat) : Int)
      | none => -1 := by
  induction s generalizing i with
  | nil =>
    unfold indexFrom find
    split <;> simp
  | cons c t ih =>
    unfold indexFrom find
    split
    · simp
    · rw [ih]
      cases find substr t with
      | none => simp
      | some j => simp only [Option.map_some']; push_cast; ring

theorem Index_none {s substr : GoString} (h : find substr s = none) : Index s substr = -1 := by
  unfold Index
  rw [indexFrom_eq, h]

theorem Index_some {s substr : GoString} {j : Nat} (h : find substr s = some j) :
    Index s substr = (j : Int) := by
  unfold Index
  rw [indexFrom_eq, h]
  simp

theorem find_some_spec {old : GoString} (hold : old ≠ []) :
    ∀ (s : GoString) (j : Nat), find old s = some j →
      s = s.take j ++ old ++ s.drop (j + old.length) := by
  intro s
  induction s with
  | nil =>
    intro j h
    simp [find, hold] at h
  | cons c t ih =>
    intro j h
    unfold find at h
    split at h
    · rename_i hp
      injection h with h
      subst h
      simpa using HasPrefix_split hp
    · cases hf : find old t with
      | none => simp [hf] at h
      | some k =>
        simp [hf] at h
        subst h
        have := ih k hf
        simp only [List.take_succ_cons, List.cons_append]
        rw [show k + 1 + old.length = (k + old.length) + 1 by omega, List.drop_succ_cons]
        exact congrArg (c :: ·) this

theorem find_none_iff (old s : GoString) : find old s = none ↔ ¬ old <:+: s := by
  induction s with
  | nil =>
    unfold find
    by_cases h : old = []
    · simp [h]
    · simp [h]
  | cons c t ih =>
    unfold find
    rw [List.infix_cons_iff]
    by_cases hp : HasPrefix (c :: t) old = true
    · simp [hp, (HasPrefix_iff _ _).mp hp]
    · have : ¬ old <+: c :: t := fun h => hp ((HasPrefix_iff _ _).mpr h)
      simp [hp, this, ih]

theorem HasPrefix_ne_nil {s old : GoString} (hold : old ≠ []) (h : HasPrefix s old = true) :
    s ≠ [] := by
  intro hs
  subst hs
  have := (HasPrefix_iff _ _).mp h
  exact hold (List.prefix_nil.mp this)

theorem replaceAllFuel_fuel {old : GoString} (new : GoString) (hold : old ≠ []) :
    ∀ (f g : Nat) (s : GoString), s.length ≤ f → s.length ≤ g →
      replaceAllFuel old new f s = replaceAllFuel old new g s := by
  intro f
  induction f with
  | zero =>
    intro g s hf hg
    have hs : s = [] := List.length_eq_zero.mp (Nat.le_zero.mp hf)
    subst hs
    cases g with
    | zero => rfl
    | succ g =>
      unfold replaceAllFuel
      have : HasPrefix [] old = false := by
        cases h : HasPrefix [] old with
        | false => rfl
        | true => exact absurd rfl (HasPrefix_ne_nil hold h)
      simp [this]
  | succ f ih =>
    intro g s hf hg
    cases g with
    | zero =>
      have hs : s = [] := List.length_eq_zero.mp (Nat.le_zero.mp hg)
      subst hs
      unfold replaceAllFuel
      have : HasPrefix [] old = false := by
        cases h : HasPrefix [] old with
        | false => rfl
        | true => exact absurd rfl (HasPrefix_ne_nil hold h)
      simp [this]
    | succ g =>
      simp only [replaceAllFuel]
      split
      · rename_i hp
        have hne := HasPrefix_ne_nil hold hp
        have hlen : 0 < old.length := List.length_pos.mpr hold
        have hs : 0 < s.length := List.length_pos.mpr hne
        have hd : (s.drop old.length).length ≤ f := by
          rw [List.length_drop]; omega
        have hd2 : (s.drop old.length).length ≤ g := by
          rw [List.length_drop]; omega
        rw [ih g _ hd hd2]
      · cases s with
        | nil => rfl
        | cons c t =>
          simp only [List.length_cons] at hf hg
          simp only
          rw [ih g t (by omega) (by omega)]

theorem replaceAll_match {old : GoString} (new : GoString) (hold : old ≠ []) {s : GoString}
    (h : HasPrefix s old = true) :
    replaceAll s old new = new ++ replaceAll (s.drop old.length) old new := by
  have hne := HasPrefix_ne_nil hold h
  have hlen : 0 < old.length := List.length_pos.mpr hold
  unfold replaceAll
  obtain ⟨c, t, rfl⟩ := List.exists_cons_of_ne_nil hne
  rw [List.length_cons, replaceAllFuel, if_pos h]
  congr 1
  apply replaceAllFuel_fuel new hold
  · rw [List.length_drop, List.length_cons]; omega
  · exact Nat.le_refl _

theorem replaceAll_skip {old : GoString} (new : GoString) (hold : old ≠ []) {c : UInt8}
    {t : GoString} (h : HasPrefix (c :: t) old = false) :
    replaceAll (c :: t) old new = c :: replaceAll t old new := by
  unfold replaceAll
  rw [List.length_cons, replaceAllFuel]
  simp [h]

theorem replaceAll_nil (old new : GoString) : replaceAll [] old new = [] := rfl

theorem replaceAll_of_find_none {old : GoString} (new : GoString) (hold : old ≠ []) :
    ∀ s : GoString, find old s = none → replaceAll s old new = s := by
  intro s
  induction s with
  | nil => intro _; rfl
  | cons c t ih =>
    intro h
    unfold find at h
    split at h
    · cases h
    · rename_i hp
      have hp2 : HasPrefix (c :: t) old = false := by simpa using hp
      rw [replaceAll_skip new hold hp2, ih (by simpa using h)]

theorem replaceAll_of_find_some {old : GoString} (new : GoString) (hold : old ≠ []) :
    ∀ (s : GoString) (j : Nat), find old s = some j →
      replaceAll s old new
        = s.take j ++ new ++ replaceAll (s.drop (j + old.length)) old new := by
  intro s
  induction s with
  | nil =>
    intro j h
    simp [find, hold] at h
  | cons c t ih =>
    intro j h
    unfold find at h
    split at h
    · rename_i hp
      injection h with h
      subst h
      simpa using replaceAll_match new hold hp
    · rename_i hp
      have hp2 : HasPrefix (c :: t) old = false := by simpa using hp
      cases hf : find old t with
      | none => simp [hf] at h
      | some k =>
        simp [hf] at h
        subst h
        rw [replaceAll_skip new hold hp2, ih k hf]
        rw [show k + 1 + old.length = (k + old.length) + 1 by omega, List.drop_succ_cons]
        simp

theorem find_some_bound {old : GoString} (hold : old ≠ []) {s : GoString} {j : Nat}
    (h : find old s = some j) : j + old.length ≤ s.length := by
  have := congrArg List.length (find_some_spec hold s j h)
  have hlen : 0 < old.length := List.length_pos.mpr hold
  simp only [List.length_append, List.length_take, List.length_drop] at this
  omega

theorem countLoop_acc (old : GoString) :
    ∀ (f : Nat) (s : GoString) (n : Nat), countLoop old f s n = n + countLoop old f s 0 := by
  intro f
  induction f with
  | zero => intro s n; simp [countLoop]
  | succ f ih =>
    intro s n
    simp only [countLoop]
    split
    · simp
    · rw [ih _ (n + 1), ih _ (0 + 1)]
      omega

theorem countLoop_none {old s : GoString} (h : find old s = none) (f n : Nat) :
    countLoop old f s n = n := by
  cases f with
  | zero => rfl
  | succ f => simp [countLoop, Index_none h]

theorem countLoop_some {old s : GoString} {j : Nat} (h : find old s = some j) (f n : Nat) :
    countLoop old (f + 1) s n = countLoop old f (s.drop (j + old.length)) (n + 1) := by
  have hi := Index_some h
  simp only [countLoop, hi]
  have : ¬ ((j : Int) = -1) := by omega
  simp [this]

theorem countLoop_fuel {old : GoString} (hold : old ≠ []) :
    ∀ (f g : Nat) (s : GoString) (n : Nat), s.length < f → s.length < g →
      countLoop old f s n = countLoop old g s n := by
  intro f
  induction f with
  | zero => intro g s n hf; omega
  | succ f ih =>
    intro g s n hf hg
    cases g with
    | zero => omega
    | succ g =>
      cases h : find old s with
      | none => rw [countLoop_none h, countLoop_none h]
      | some j =>
        rw [countLoop_some h, countLoop_some h]
        have hb := find_some_bound hold h
        have hlen : 0 < old.length := List.length_pos.mpr hold
        apply ih
        · rw [List.length_drop]; omega
        · rw [List.length_drop]; omega

/-- The number of instances the general loop of `Count` finds. -/
theorem replaceLoop_eq {old : GoString} (new : GoString) (hold : old ≠ []) (s : GoString) :
    ∀ (f start i : Nat) (b : GoString), (s.drop start).length < f →
      replaceLoop s old new (countLoop old f (s.drop start) 0) i start b
        = b ++ replaceAll (s.drop start) old new := by
  intro f
  have hlen : 0 < old.length := List.length_pos.mpr hold
  have hlen0 : ¬ old.length = 0 := by omega
  induction f with
  | zero => intro start i b h; omega
  | succ f ih =>
    intro start i b h
    cases hf : find old (s.drop start) with
    | none =>
      rw [countLoop_none hf, replaceAll_of_find_none new hold _ hf]
      rfl
    | some j =>
      have hb := find_some_bound hold hf
      rw [countLoop_some hf, countLoop_acc, replaceAll_of_find_some new hold _ _ hf]
      rw [show 0 + 1 + countLoop old f (List.drop (j + old.length) (List.drop start s)) 0
            = countLoop old f (List.drop (j + old.length) (List.drop start s)) 0 + 1 by omega]
      rw [replaceLoop]
      simp only [hlen0, if_false, Index_some hf, Int.toNat_ofNat]
      have hd : List.drop (j + old.length) (List.drop start s)
          = List.drop (start + j + old.length) s := by
        rw [List.drop_drop]; congr 1; omega
      rw [hd, show start + j - start = j by omega]
      rw [ih (start + j + old.length) (i + 1) _ (by
        rw [List.length_drop] at h ⊢; rw [List.length_drop] at hb; omega)]
      simp

theorem countLoop_skip {old : GoString} (hold : old ≠ []) {c : UInt8} {t : GoString}
    (h : HasPrefix (c :: t) old = false) :
    countLoop old ((c :: t).length + 1) (c :: t) 0 = countLoop old (t.length + 1) t 0 := by
  have hfind : find old (c :: t) = (find old t).map (· + 1) := by
    rw [find]; simp [h]
  cases hf : find old t with
  | none =>
    rw [hf] at hfind
    rw [countLoop_none hfind, countLoop_none hf]
  | some k =>
    rw [hf] at hfind
    have hb := find_some_bound hold hf
    have hlen : 0 < old.length := List.length_pos.mpr hold
    rw [countLoop_some hfind, countLoop_some hf]
    rw [show k + 1 + old.length = (k + old.length) + 1 by omega, List.drop_succ_cons]
    apply countLoop_fuel hold
    · rw [List.length_drop, List.length_cons]; omega
    · rw [List.length_drop]; omega

theorem countLoop_match {old : GoString} (hold : old ≠ []) {s : GoString}
    (h : HasPrefix s old = true) :
    countLoop old (s.length + 1) s 0
      = countLoop old ((s.drop old.length).length + 1) (s.drop old.length) 0 + 1 := by
  have hne := HasPrefix_ne_nil hold h
  obtain ⟨c, t, rfl⟩ := List.exists_cons_of_ne_nil hne
  have hfind : find old (c :: t) = some 0 := by
    rw [find]; simp [h]
  have hlen : 0 < old.length := List.length_pos.mpr hold
  rw [countLoop_some hfind, countLoop_acc]
  simp only [Nat.zero_add]
  rw [Nat.add_comm]
  congr 1
  apply countLoop_fuel hold
  · rw [List.length_drop, List.length_cons]; omega
  · omega

theorem count_byte_eq (b : UInt8) :
    ∀ s : GoString, s.count b = countLoop [b] (s.length + 1) s 0 := by
  intro s
  induction s with
  | nil => rfl
  | cons c t ih =>
    by_cases hc : c = b
    · subst hc
      have hp : HasPrefix (c :: t) [c] = true := by simp [HasPrefix]
      rw [countLoop_match (by simp) hp]
      simpa using ih
    · have hp : HasPrefix (c :: t) [b] = false := by simp [HasPrefix, hc]
      rw [countLoop_skip (by simp) hp, ← ih]
      simp [List.count_cons, hc]

theorem Count_eq {old : GoString} (hold : old ≠ []) (s : GoString) :
    Count s old = countLoop old (s.length + 1) s 0 := by
  have hlen : 0 < old.length := List.length_pos.mpr hold
  unfold Count
  rw [if_neg (by omega)]
  split
  · rename_i h1
    obtain ⟨b, rfl⟩ := List.length_eq_one.mp h1
    simpa using count_byte_eq b s
  · rfl

theorem Count_eq_zero_iff {old : GoString} (hold : old ≠ []) (s : GoString) :
    Count s old = 0 ↔ find old s = none := by
  rw [Count_eq hold]
  cases h : find old s with
  | none => simp [countLoop_none h]
  | some j =>
    rw [countLoop_some h, countLoop_acc]
    simp

/-- For a non-empty `old`, `Replace` with `n < 0` replaces the instances of
`old` met on a scan from the left, each scan resuming after the instance. -/
theorem Replace_eq_replaceAll {old new : GoString} (hold : old ≠ []) (hne : old ≠ new)
    (s : GoString) : Replace s old new (-1) = replaceAll s old new := by
  unfold Replace
  rw [if_neg (by simp [hne])]
  simp only
  split
  · rename_i h0
    rw [replaceAll_of_find_none new hold s ((Count_eq_zero_iff hold s).mp h0)]
  · have := replaceLoop_eq new hold s (s.length + 1) 0 0 [] (by simp)
    simp only [List.drop_zero, List.nil_append] at this
    rw [← this, Count_eq hold]
    simp

theorem replaceAll_length_le {old new : GoString} (hold : old ≠ [])
    (hlen : new.length ≤ old.length) :
    ∀ (n : Nat) (s : GoString), s.length ≤ n → (replaceAll s old new).length ≤ s.length := by
  intro n
  induction n with
  | zero =>
    intro s hs
    have : s = [] := List.length_eq_zero.mp (Nat.le_zero.mp hs)
    subst this
    simp [replaceAll_nil]
  | succ n ih =>
    intro s hs
    cases hf : find old s with
    | none => rw [replaceAll_of_find_none new hold s hf]
    | some j =>
      have hb := find_some_bound hold hf
      have hpos : 0 < old.length := List.length_pos.mpr hold
      rw [replaceAll_of_find_some new hold s j hf]
      have := ih (s.drop (j + old.length)) (by rw [List.length_drop]; omega)
      simp only [List.length_append, List.length_take]
      rw [List.length_drop] at this
      omega

theorem replaceAll_length_ge {old new : GoString} (hold : old ≠ [])
    (hlen : old.length ≤ new.length) :
    ∀ (n : Nat) (s : GoString), s.length ≤ n → s.length ≤ (replaceAll s old new).length := by
  intro n
  induction n with
  | zero =>
    intro s hs
    have : s = [] := List.length_eq_zero.mp (Nat.le_zero.mp hs)
    subst this
    simp [replaceAll_nil]
  | succ n ih =>
    intro s hs
    cases hf : find old s with
    | none => rw [replaceAll_of_find_none new hold s hf]
    | some j =>
      have hb := find_some_bound hold hf
      have hpos : 0 < old.length := List.length_pos.mpr hold
      rw [replaceAll_of_find_some new hold s j hf]
      have := ih (s.drop (j + old.length)) (by rw [List.length_drop]; omega)
      simp only [List.length_append, List.length_take]
      rw [List.length_drop] at this
      omega

theorem replaceAll_eq_self_iff {old new : GoString} (hold : old ≠ []) (hne : old ≠ new)
    (s : GoString) : replaceAll s old new = s ↔ ¬ old <:+: s := by
  rw [← find_none_iff]
  constructor
  · intro h
    cases hf : find old s with
    | none => rfl
    | some j =>
      exfalso
      have hb := find_some_bound hold hf
      have hs := find_some_spec hold s j hf
      have hr := replaceAll_of_find_some new hold s j hf
      rw [h] at hr
      have hs1 := hr.symm.trans hs
      simp only [List.append_assoc] at hs1
      have hs2 := List.append_cancel_left hs1
      rcases Nat.lt_trichotomy new.length old.length with hlt | heq | hgt
      · have h1 := replaceAll_length_le hold (Nat.le_of_lt hlt) _
          (s.drop (j + old.length)) (Nat.le_refl _)
        have h2 := congrArg List.length hs2
        simp only [List.length_append] at h2
        omega
      · exact hne (List.append_inj_left hs2 heq).symm
      · have h1 := replaceAll_length_ge hold (Nat.le_of_lt hgt) _
          (s.drop (j + old.length)) (Nat.le_refl _)
        have h2 := congrArg List.length hs2
        simp only [List.length_append] at h2
        omega
  · intro h
    exact replaceAll_of_find_none new hold s h

end strings

/-! ## lemmas: runes, and strings.Replace for an empty old -/

namespace utf8

theorem first_lt {c : UInt8} (h : c < RuneSelf) : first c = as := by
  unfold first
  have h2 : c < 0x80 := h
  rw [if_pos h2]

theorem first_mem (c : UInt8) : first c ∈ [as, xx, s1, s2, s3, s4, s5, s6, s7] := by
  unfold first
  split_ifs <;> decide

theorem first_sz (c : UInt8) (h : ¬ first c ≥ as) :
    2 ≤ (first c).toNat % 8 ∧ (first c).toNat % 8 ≤ 4 := by
  have key : ∀ x ∈ [as, xx, s1, s2, s3, s4, s5, s6, s7],
      ¬ x ≥ as → 2 ≤ x.toNat % 8 ∧ x.toNat % 8 ≤ 4 := by decide
  exact key _ (first_mem c) h

theorem first_ge_iff (c : UInt8) (hc : ¬ c < RuneSelf) : first c ≥ as ↔ first c = xx := by
  unfold first
  have hc2 : ¬ c < 0x80 := hc
  rw [if_neg hc2]
  split_ifs <;> decide

theorem DecodeRuneInString_pos {s : GoString} (hs : s ≠ []) : 1 ≤ DecodeRuneInString s := by
  have hl : ¬ s.length < 1 := by
    have := List.length_pos.mpr hs
    omega
  unfold DecodeRuneInString
  simp only [hl, if_false]
  split_ifs <;> omega

theorem DecodeRuneInString_le (s : GoString) : DecodeRuneInString s ≤ s.length := by
  unfold DecodeRuneInString
  by_cases hl : s.length < 1
  · simp [hl]
  · simp only [hl, if_false]
    by_cases hx : first (s.getD 0 0) ≥ as
    · simp only [hx, if_true]; omega
    · have hsz := first_sz _ hx
      simp only [hx, if_false]
      split_ifs <;> omega

theorem getD_drop (s : GoString) (i k : Nat) : (s.drop i).getD k 0 = s.getD (i + k) 0 := by
  simp [List.getD_eq_getElem?_getD, List.getElem?_drop]

theorem runeCountLoop_step (s : GoString) (fuel i n : Nat) (hi : i < s.length) :
    runeCountLoop s (fuel + 1) i n
      = runeCountLoop s fuel (i + DecodeRuneInString (s.drop i)) (n + 1) := by
  have hl : ¬ (s.drop i).length < 1 := by
    rw [List.length_drop]; omega
  rw [runeCountLoop]
  unfold DecodeRuneInString
  simp only [hi, not_true_eq_false, if_false, hl, getD_drop, Nat.add_zero]
  by_cases hc : s.getD i 0 < RuneSelf
  · simp only [hc, if_true, first_lt hc]
    simp
  · simp only [hc, if_false]
    by_cases hx : first (s.getD i 0) = xx
    · have hge := (first_ge_iff _ hc).mpr hx
      simp only [hx, if_true] at hge ⊢
      simp [hge]
    · have hge : ¬ first (s.getD i 0) ≥ as := fun h => hx ((first_ge_iff _ hc).mp h)
      have hsz := first_sz _ hge
      simp only [hx, hge, if_false]
      rw [List.length_drop]
      by_cases hn : i + (first (s.getD i 0)).toNat % 8 > s.length
      · have hn2 : s.length - i < (first (s.getD i 0)).toNat % 8 := by omega
        simp only [hn, hn2, if_true]
      · have hn2 : ¬ s.length - i < (first (s.getD i 0)).toNat % 8 := by omega
        simp only [hn, hn2, if_false]
        congr 2
        split_ifs <;> omega
theorem runeCountLoop_eq (s : GoString) :
    ∀ (fuel i n : Nat), s.length ≤ i + fuel →
      runeCountLoop s fuel i n = n + (runesFuel fuel (s.drop i)).length := by
  intro fuel
  induction fuel with
  | zero =>
    intro i n h
    simp [runeCountLoop, runesFuel]
  | succ fuel ih =>
    intro i n h
    by_cases hi : i < s.length
    · have hne : s.drop i ≠ [] := by
        intro h0
        have := congrArg List.length h0
        rw [List.length_drop] at this
        simp at this
        omega
      have hpos := DecodeRuneInString_pos hne
      rw [runeCountLoop_step s fuel i n hi, ih _ _ (by omega)]
      rw [runesFuel, if_neg hne, List.length_cons, List.drop_drop]
      omega
    · have h0 : s.drop i = [] := List.drop_eq_nil_of_le (by omega)
      rw [runeCountLoop]
      simp [hi, h0, runesFuel]

theorem RuneCountInString_eq (s : GoString) : RuneCountInString s = (runes s).length := by
  unfold RuneCountInString runes
  rw [runeCountLoop_eq s _ 0 0 (by omega)]
  simp

theorem runesFuel_flatten : ∀ (fuel : Nat) (s : GoString), s.length ≤ fuel →
    (runesFuel fuel s).flatten = s := by
  intro fuel
  induction fuel with
  | zero =>
    intro s h
    have : s = [] := List.length_eq_zero.mp (Nat.le_zero.mp h)
    subst this
    rfl
  | succ fuel ih =>
    intro s h
    rw [runesFuel]
    split
    · rename_i h0
      subst h0
      rfl
    · rename_i hne
      have hpos := DecodeRuneInString_pos hne
      rw [List.flatten_cons, ih _ (by rw [List.length_drop]; omega), List.take_append_drop]

theorem runes_flatten (s : GoString) : (runes s).flatten = s :=
  runesFuel_flatten _ s (Nat.le_refl _)

theorem runesFuel_ne_nil : ∀ (fuel : Nat) (s r : GoString), r ∈ runesFuel fuel s → r ≠ [] := by
  intro fuel
  induction fuel with
  | zero => intro s r h; simp [runesFuel] at h
  | succ fuel ih =>
    intro s r h
    rw [runesFuel] at h
    split at h
    · simp at h
    · rename_i hne
      rcases List.mem_cons.mp h with h1 | h1
      · subst h1
        have hpos := DecodeRuneInString_pos hne
        intro h0
        have := congrArg List.length h0
        rw [List.length_take, List.length_nil] at this
        have hl := List.length_pos.mpr hne
        omega
      · exact ih _ _ h1

end utf8


namespace strings

theorem replaceLoop_empty (new s : GoString) :
    ∀ (fuel start i : Nat) (b : GoString), (s.drop start).length ≤ fuel →
      replaceLoop s [] new (utf8.runesFuel fuel (s.drop start)).length (i + 1) start b
        = b ++ (utf8.runesFuel fuel (s.drop start)).flatMap (fun r => r ++ new) := by
  intro fuel
  induction fuel with
  | zero =>
    intro start i b h
    have : s.drop start = [] := List.length_eq_zero.mp (Nat.le_zero.mp h)
    simp [utf8.runesFuel, replaceLoop, this]
  | succ fuel ih =>
    intro start i b h
    rw [utf8.runesFuel]
    split
    · rename_i h0
      simp [replaceLoop, h0]
    · rename_i hne
      have hpos := utf8.DecodeRuneInString_pos hne
      rw [List.length_cons, replaceLoop]
      simp only [List.length_nil, if_true, Nat.add_zero, Nat.succ_pos, Nat.add_sub_cancel_left]
      have hd : List.drop (utf8.DecodeRuneInString (List.drop start s)) (List.drop start s)
          = List.drop (start + utf8.DecodeRuneInString (List.drop start s)) s := by
        rw [List.drop_drop]
      have hlen2 : (List.drop (start + utf8.DecodeRuneInString (List.drop start s)) s).length
          ≤ fuel := by
        rw [← hd, List.length_drop]; omega
      rw [hd, ih _ _ _ hlen2]
      simp [List.flatMap_cons]

/-- For an empty `old`, `Replace` with `n < 0` puts `new` before every rune
of `s` and once more at the end. -/
theorem Replace_empty {new : GoString} (hnew : new ≠ []) (s : GoString) :
    Replace s [] new (-1) = (utf8.runes s).flatMap (fun r => new ++ r) ++ new := by
  have hshift : ∀ l : List GoString,
      new ++ l.flatMap (fun r => r ++ new) = l.flatMap (fun r => new ++ r) ++ new := by
    intro l
    induction l with
    | nil => simp
    | cons r l ih =>
      simp only [List.flatMap_cons, List.append_assoc]
      rw [ih]
  unfold Replace
  rw [if_neg (by simp [hnew.symm])]
  simp only [Count, List.length_nil, if_true]
  rw [if_neg (by omega), if_pos (by omega), replaceLoop]
  simp only [List.length_nil, if_true, Nat.lt_irrefl, if_false, Nat.add_zero, Nat.sub_self,
    List.take_zero, List.append_nil, List.nil_append]
  rw [utf8.RuneCountInString_eq]
  have := replaceLoop_empty new s s.length 0 0 new (by simp)
  simp only [List.drop_zero] at this
  rw [← hshift]
  exact this

end strings

/-! ## the claims -/

section edit

variable {W R T : Type}

/-- What `EditFile` does on a file that can be read, once its input has passed
the validation. -/
theorem EditFile_existing (env : Env W R T) (input : RawMessage) (w : W) (e : EditFileInput)
    (c : GoString) (hin : EditFileInput.unmarshal env input = .ok e) (hpath : e.Path ≠ [])
    (hne : e.OldStr ≠ e.NewStr) (hfile : env.ReadFile e.Path w = .ok c) :
    EditFile env input w =
      if c = strings.Replace c e.OldStr e.NewStr (-1) ∧ e.OldStr ≠ [] then
        .ret (.error (.errorf (go "old_str not found in file"))) w
      else
        match env.WriteFile e.Path (strings.Replace c e.OldStr e.NewStr (-1)) 0o644 w with
        | (some err, w1) => .ret (.error (.lib err)) w1
        | (none, w1) => .ret (.ok (go "OK")) w1 := by
  unfold EditFile
  rw [hin]
  simp only [hpath, hne, or_self, if_false, hfile]

/-- What `EditFile` does when the file cannot be read, once its input has
passed the validation. -/
theorem EditFile_missing (env : Env W R T) (input : RawMessage) (w : W) (e : EditFileInput)
    (err : LibError) (hin : EditFileInput.unmarshal env input = .ok e) (hpath : e.Path ≠ [])
    (hne : e.OldStr ≠ e.NewStr) (hfile : env.ReadFile e.Path w = .error err) :
    EditFile env input w =
      if os.IsNotExist (.lib err) ∧ e.OldStr = [] then createNewFile env e.Path e.NewStr w
      else .ret (.error (.lib err)) w := by
  unfold EditFile
  rw [hin]
  simp only [hpath, hne, or_self, if_false, hfile]

/-- A successful `EditFile` on a file that can be read returns "OK" after the
one write of the replaced content. -/
theorem EditFile_existing_ok (env : Env W R T) (input : RawMessage) (w w' : W)
    (e : EditFileInput) (c r : GoString)
    (hin : EditFileInput.unmarshal env input = .ok e) (hpath : e.Path ≠ [])
    (hne : e.OldStr ≠ e.NewStr) (hfile : env.ReadFile e.Path w = .ok c)
    (hok : EditFile env input w = .ret (.ok r) w') :
    r = go "OK"
    ∧ env.WriteFile e.Path (strings.Replace c e.OldStr e.NewStr (-1)) 0o644 w = (none, w') := by
  rw [EditFile_existing env input w e c hin hpath hne hfile] at hok
  split at hok
  · cases hok
  · split at hok
    · cases hok
    · rename_i hw
      injection hok with h1 h2
      injection h1 with h1
      exact ⟨h1.symm, by rw [hw, h2]⟩

/-- The content is unchanged by the replacement exactly when `old_str` does not
occur in it. -/
theorem Replace_eq_self_iff {old new : GoString} (hold : old ≠ []) (hne : old ≠ new)
    (c : GoString) : c = strings.Replace c old new (-1) ↔ ¬ old <:+: c := by
  rw [strings.Replace_eq_replaceAll hold hne, ← strings.replaceAll_eq_self_iff hold hne c]
  exact eq_comm

/-- On a file that can be read, `EditFile` with a non-empty `old_str` returns the
error "old_str not found in file" exactly when `old_str` does not occur in the
content, and then in the world it started in. -/
theorem EditFile_existing_not_found (env : Env W R T) (input : RawMessage) (w w' : W)
    (e : EditFileInput) (c : GoString)
    (hin : EditFileInput.unmarshal env input = .ok e) (hpath : e.Path ≠ [])
    (hold : e.OldStr ≠ []) (hne : e.OldStr ≠ e.NewStr)
    (hfile : env.ReadFile e.Path w = .ok c) :
    EditFile env input w = .ret (.error (.errorf (go "old_str not found in file"))) w'
      ↔ w' = w ∧ ¬ e.OldStr <:+: c := by
  rw [EditFile_existing env input w e c hin hpath hne hfile]
  by_cases hinf : e.OldStr <:+: c
  · have hc : ¬ (c = strings.Replace c e.OldStr e.NewStr (-1) ∧ e.OldStr ≠ []) := by
      rw [Replace_eq_self_iff hold hne]
      exact fun h => h.1 hinf
    rw [if_neg hc]
    constructor
    · intro h
      split at h
      · injection h with h1 h2
        injection h1 with h1
        cases h1
      · cases h
    · intro h
      exact absurd hinf h.2
  · have hc : c = strings.Replace c e.OldStr e.NewStr (-1) ∧ e.OldStr ≠ [] :=
      ⟨(Replace_eq_self_iff hold hne c).mpr hinf, hold⟩
    rw [if_pos hc]
    constructor
    · intro h
      injection h with h1 h2
      exact ⟨h2.symm, hinf⟩
    · rintro ⟨h, _⟩
      rw [h]

/-- C1: on an existing file with content `c`, for an input with a non-empty
path and `old_str ≠ new_str`, a successful `EditFile` returns "OK" and has
written, with the one call of `os.WriteFile` that leaves the final world,
`strings.Replace(c, old_str, new_str, -1)`; for a non-empty `old_str` that is
`c` with every non-overlapping instance of `old_str`, found left to right,
replaced by `new_str`, and "ababab" with "ab" and "X" gives "XXX". -/
theorem EditFile_replaces_every_occurrence (env : Env W R T) (input : RawMessage) (w w' : W)
    (e : EditFileInput) (c r : GoString)
    (hin : EditFileInput.unmarshal env input = .ok e) (hpath : e.Path ≠ [])
    (hne : e.OldStr ≠ e.NewStr) (hfile : env.ReadFile e.Path w = .ok c)
    (hok : EditFile env input w = .ret (.ok r) w') :
    r = go "OK"
    ∧ env.WriteFile e.Path (strings.Replace c e.OldStr e.NewStr (-1)) 0o644 w = (none, w')
    ∧ (e.OldStr ≠ [] →
        strings.Replace c e.OldStr e.NewStr (-1) = strings.replaceAll c e.OldStr e.NewStr)
    ∧ (c = go "ababab" → e.OldStr = go "ab" → e.NewStr = go "X" →
        strings.Replace c e.OldStr e.NewStr (-1) = go "XXX") := by
  obtain ⟨h1, h2⟩ := EditFile_existing_ok env input w w' e c r hin hpath hne hfile hok
  refine ⟨h1, h2, fun hold => strings.Replace_eq_replaceAll hold hne c, ?_⟩
  intro h1 h2 h3
  rw [h1, h2, h3]
  decide

theorem EditFile_replaces_every_occurrence_witness :
    EditFile sample.env (sample.editPayload "notes.txt" "ab" "X") (sample.world (go "ababab"))
      = .ret (.ok (go "OK")) (sample.world (go "XXX"))
    ∧ sample.WriteFile (go "notes.txt")
        (strings.replaceAll (go "ababab") (go "ab") (go "X")) 0o644 (sample.world (go "ababab"))
      = (none, sample.world (go "XXX")) :=
  have h := EditFile_replaces_every_occurrence sample.env
    (sample.editPayload "notes.txt" "ab" "X") (sample.world (go "ababab"))
    (sample.world (go "XXX")) ⟨go "notes.txt", go "ab", go "X"⟩ (go "ababab") (go "OK")
    rfl (by decide) (by decide) rfl rfl
  ⟨rfl, (h.2.2.1 (by decide)) ▸ h.2.1⟩

/-- A successful `EditFile` has passed the validation. -/
theorem EditFile_ok_valid (env : Env W R T) (input : RawMessage) (w w' : W) (e : EditFileInput)
    (r : GoString) (hin : EditFileInput.unmarshal env input = .ok e)
    (hok : EditFile env input w = .ret (.ok r) w') : e.Path ≠ [] ∧ e.OldStr ≠ e.NewStr := by
  unfold EditFile at hok
  rw [hin] at hok
  simp only at hok
  split at hok
  · cases hok
  · rename_i h
    exact not_or.mp h

/-- C3: on an existing file with content `c`, for an input with a non-empty
path, a non-empty `old_str` and `old_str ≠ new_str`, `EditFile` returns the
error "old_str not found in file" if and only if `old_str` is not a substring
of `c`, and then the world is the one it started in: nothing was written. -/
theorem EditFile_not_found_iff (env : Env W R T) (input : RawMessage) (w : W)
    (e : EditFileInput) (c : GoString)
    (hin : EditFileInput.unmarshal env input = .ok e) (hpath : e.Path ≠ [])
    (hold : e.OldStr ≠ []) (hne : e.OldStr ≠ e.NewStr)
    (hfile : env.ReadFile e.Path w = .ok c) :
    ((∃ w', EditFile env input w
          = .ret (.error (.errorf (go "old_str not found in file"))) w')
        ↔ ¬ e.OldStr <:+: c)
    ∧ ∀ w', EditFile env input w
          = .ret (.error (.errorf (go "old_str not found in file"))) w' → w' = w := by
  have key := fun w' => EditFile_existing_not_found env input w w' e c hin hpath hold hne hfile
  refine ⟨⟨?_, ?_⟩, ?_⟩
  · rintro ⟨w', h⟩
    exact ((key w').mp h).2
  · intro h
    exact ⟨w, (key w).mpr ⟨rfl, h⟩⟩
  · intro w' h
    exact ((key w').mp h).1

theorem EditFile_not_found_iff_witness :
    (∃ w', EditFile sample.env (sample.editPayload "notes.txt" "zz" "X")
        (sample.world (go "ababab"))
          = .ret (.error (.errorf (go "old_str not found in file"))) w')
      ↔ ¬ go "zz" <:+: go "ababab" :=
  (EditFile_not_found_iff sample.env (sample.editPayload "notes.txt" "zz" "X")
    (sample.world (go "ababab")) ⟨go "notes.txt", go "zz", go "X"⟩ (go "ababab")
    rfl (by decide) (by decide) (by decide) rfl).1

/-- C2, as it stands, fails: with content "a", `old_str` "a" and `new_str` "aa"
the first `EditFile` succeeds and so does the second one, on the file the
first one left. -/
theorem EditFile_second_edit_succeeds :
    EditFile sample.env (sample.editPayload "notes.txt" "a" "aa") (sample.world (go "a"))
      = .ret (.ok (go "OK")) (sample.world (go "aa"))
    ∧ EditFile sample.env (sample.editPayload "notes.txt" "a" "aa") (sample.world (go "aa"))
      = .ret (.ok (go "OK")) (sample.world (go "aaaa"))
    ∧ ∀ w', EditFile sample.env (sample.editPayload "notes.txt" "a" "aa")
        (sample.world (go "aa"))
          ≠ .ret (.error (.errorf (go "old_str not found in file"))) w' := by
  refine ⟨rfl, rfl, ?_⟩
  intro w' h
  have h2 : EditFile sample.env (sample.editPayload "notes.txt" "a" "aa")
      (sample.world (go "aa")) = .ret (.ok (go "OK")) (sample.world (go "aaaa")) := rfl
  rw [h2] at h
  injection h with h1 _
  cases h1

/-- C2, amended: after a successful `EditFile` with a non-empty `old_str` on a
file with content `c`, in a world where a file that was written reads back as
written, the same `EditFile` again returns the error "old_str not found in
file" if and only if `old_str` does not occur in the content the first call
wrote, `strings.Replace(c, old_str, new_str, -1)`; when `old_str` still occurs
there, the second call replaces again: it calls `os.WriteFile` with the
replacement applied to that content and returns "OK" when the write succeeds
and the failure of the write otherwise. -/
theorem EditFile_twice (env : Env W R T) (input : RawMessage) (w w1 : W)
    (e : EditFileInput) (c r : GoString)
    (hin : EditFileInput.unmarshal env input = .ok e) (hold : e.OldStr ≠ [])
    (hfile : env.ReadFile e.Path w = .ok c)
    (hok : EditFile env input w = .ret (.ok r) w1)
    (hback : ∀ (name data : GoString) (perm : Nat) (w0 w0' : W),
      env.WriteFile name data perm w0 = (none, w0') → env.ReadFile name w0' = .ok data) :
    (EditFile env input w1 = .ret (.error (.errorf (go "old_str not found in file"))) w1
      ↔ ¬ e.OldStr <:+: strings.Replace c e.OldStr e.NewStr (-1))
    ∧ (e.OldStr <:+: strings.Replace c e.OldStr e.NewStr (-1) →
        EditFile env input w1 =
          match env.WriteFile e.Path
              (strings.Replace (strings.Replace c e.OldStr e.NewStr (-1))
                e.OldStr e.NewStr (-1)) 0o644 w1 with
          | (some err, w2) => .ret (.error (.lib err)) w2
          | (none, w2) => .ret (.ok (go "OK")) w2) := by
  obtain ⟨hpath, hne⟩ := EditFile_ok_valid env input w w1 e r hin hok
  have hw := (EditFile_existing_ok env input w w1 e c r hin hpath hne hfile hok).2
  have hfile1 := hback _ _ _ _ _ hw
  constructor
  · rw [EditFile_existing_not_found env input w1 w1 e _ hin hpath hold hne hfile1]
    simp
  · intro hinf
    rw [EditFile_existing env input w1 e _ hin hpath hne hfile1]
    have hc : ¬ (strings.Replace c e.OldStr e.NewStr (-1)
        = strings.Replace (strings.Replace c e.OldStr e.NewStr (-1)) e.OldStr e.NewStr (-1)
        ∧ e.OldStr ≠ []) := by
      rw [Replace_eq_self_iff hold hne]
      exact fun h => h.1 hinf
    rw [if_neg hc]

theorem EditFile_twice_witness :
    EditFile sample.env (sample.editPayload "notes.txt" "ab" "X") (sample.world (go "XXX"))
        = .ret (.error (.errorf (go "old_str not found in file"))) (sample.world (go "XXX"))
      ↔ ¬ go "ab" <:+: strings.Replace (go "ababab") (go "ab") (go "X") (-1) :=
  (EditFile_twice sample.env (sample.editPayload "notes.txt" "ab" "X")
    (sample.world (go "ababab")) (sample.world (go "XXX"))
    ⟨go "notes.txt", go "ab", go "X"⟩ (go "ababab") (go "OK") rfl (by decide) rfl rfl
    (by
      intro name data perm w0 w0' h
      unfold sample.env sample.WriteFile at h
      simp only at h
      split at h
      · cases h
      · injection h with _ h2
        subst h2
        simp [sample.env, sample.ReadFile])).1

/-- C4 fails on the code by a misspelt constant: for the input with the empty
path (as for one with `old_str = new_str`) `EditFile` reads and writes nothing
and returns an error, but its message is "ivalid input parameters", not
"invalid input parameters". -/
theorem EditFile_validation_message :
    EditFile sample.env (sample.editPayload "" "a" "b") (sample.world (go "a"))
      = .ret (.error (.errorf (go "ivalid input parameters"))) (sample.world (go "a"))
    ∧ EditFile sample.env (sample.editPayload "notes.txt" "a" "a") (sample.world (go "a"))
      = .ret (.error (.errorf (go "ivalid input parameters"))) (sample.world (go "a"))
    ∧ (GoError.errorf (go "ivalid input parameters")).Error ≠ go "invalid input parameters" :=
  ⟨rfl, rfl, by decide⟩

/-- C5, as it stands, fails: in a directory that cannot be written to, no file
exists at `new.txt`, `old_str` is empty, and `EditFile` creates nothing and
returns the failure of the write instead of the success text. -/
theorem EditFile_creation_can_fail :
    sample.ReadFile (go "new.txt") (sample.locked [])
      = .error (.failure (go "open new.txt: no such file or directory") true)
    ∧ EditFile sample.env (sample.editPayload "new.txt" "" "hello") (sample.locked [])
      = .ret (.error (.wrapf (go "failed to create file: ")
          (.lib (.failure (go "open new.txt: permission denied") false)))) (sample.locked [])
    ∧ EditFile sample.env (sample.editPayload "new.txt" "" "hello") (sample.locked [])
      ≠ .ret (.ok (go "Successfully created file new.txt")) (sample.locked []) := by
  refine ⟨rfl, rfl, ?_⟩
  intro h
  have h2 : EditFile sample.env (sample.editPayload "new.txt" "" "hello") (sample.locked [])
      = .ret (.error (.wrapf (go "failed to create file: ")
          (.lib (.failure (go "open new.txt: permission denied") false)))) (sample.locked []) :=
    rfl
  rw [h2] at h
  injection h with h1 _
  cases h1

/-- C5, amended: for a non-empty path at which reading reports that no file
exists, and an empty `old_str` with a non-empty `new_str`, `EditFile` calls
`os.MkdirAll` on `path.Dir(path)` unless that is ".", then `os.WriteFile` with
`new_str` as the whole content; when both succeed it returns "Successfully
created file <path>" in the world the write left, when the first fails it
writes nothing and returns that failure as "failed to create directory: ...",
when the write fails it returns that as "failed to create file: ...".  With a
non-empty `old_str` it returns the file-not-found error and leaves the world
as it was. -/
theorem EditFile_creation (env : Env W R T) (input : RawMessage) (w : W)
    (e : EditFileInput) (msg : GoString)
    (hin : EditFileInput.unmarshal env input = .ok e) (hpath : e.Path ≠ [])
    (hne : e.OldStr ≠ e.NewStr)
    (hfile : env.ReadFile e.Path w = .error (.failure msg true)) :
    (e.OldStr = [] →
      e.NewStr ≠ [] ∧
      ∀ (w1 : W) (r1 : Option LibError),
        (if env.Dir e.Path ≠ go "." then env.MkdirAll (env.Dir e.Path) 0o755 w else (none, w))
          = (r1, w1) →
        (∀ err, r1 = some err →
          EditFile env input w
            = .ret (.error (.wrapf (go "failed to create directory: ") (.lib err))) w1)
        ∧ (r1 = none → ∀ (w2 : W) (r2 : Option LibError),
            env.WriteFile e.Path e.NewStr 0o644 w1 = (r2, w2) →
            (∀ err, r2 = some err →
              EditFile env input w
                = .ret (.error (.wrapf (go "failed to create file: ") (.lib err))) w2)
            ∧ (r2 = none →
              EditFile env input w
                = .ret (.ok (go "Successfully created file " ++ e.Path)) w2)))
    ∧ (e.OldStr ≠ [] →
      EditFile env input w = .ret (.error (.lib (.failure msg true))) w) := by
  rw [EditFile_missing env input w e _ hin hpath hne hfile]
  constructor
  · intro hold
    refine ⟨fun h => hne (by rw [hold, h]), ?_⟩
    intro w1 r1 hmk
    have hc : os.IsNotExist (.lib (.failure msg true)) = true ∧ e.OldStr = [] := ⟨rfl, hold⟩
    rw [if_pos hc]
    unfold createNewFile
    simp only
    rw [hmk]
    constructor
    · intro err hr
      subst hr
      rfl
    · intro hr w2 r2 hwr
      subst hr
      simp only
      rw [hwr]
      constructor
      · intro err hr
        subst hr
        rfl
      · intro hr
        subst hr
        rfl
  · intro hold
    have hc : ¬ (os.IsNotExist (.lib (.failure msg true)) = true ∧ e.OldStr = []) :=
      fun h => hold h.2
    rw [if_neg hc]

theorem EditFile_creation_witness :
    EditFile sample.env (sample.editPayload "docs/new.txt" "" "hello") (sample.world (go "a"))
      = .ret (.ok (go "Successfully created file " ++ go "docs/new.txt"))
          { files := [(go "docs/new.txt", go "hello"), (go "notes.txt", go "a")],
            dirs := [go "docs"], readOnly := false } :=
  ((EditFile_creation sample.env (sample.editPayload "docs/new.txt" "" "hello")
      (sample.world (go "a")) ⟨go "docs/new.txt", go "", go "hello"⟩
      (go "open docs/new.txt: no such file or directory") rfl (by decide) (by decide) rfl).1
    rfl).2 { files := [(go "notes.txt", go "a")], dirs := [go "docs"], readOnly := false }
      none rfl |>.2 rfl _ none rfl |>.2 rfl

/-- C10, as it stands, fails: on an existing file that cannot be written, with
an empty `old_str` and a non-empty `new_str`, `EditFile` returns the failure
of the write, not "OK", and the file keeps its content. -/
theorem EditFile_insertion_can_fail :
    sample.ReadFile (go "notes.txt") (sample.locked [(go "notes.txt", go "ab")])
      = .ok (go "ab")
    ∧ EditFile sample.env (sample.editPayload "notes.txt" "" "X")
        (sample.locked [(go "notes.txt", go "ab")])
      = .ret (.error (.lib (.failure (go "open notes.txt: permission denied") false)))
          (sample.locked [(go "notes.txt", go "ab")])
    ∧ ∀ w', EditFile sample.env (sample.editPayload "notes.txt" "" "X")
        (sample.locked [(go "notes.txt", go "ab")]) ≠ .ret (.ok (go "OK")) w' := by
  refine ⟨rfl, rfl, ?_⟩
  intro w' h
  have h2 : EditFile sample.env (sample.editPayload "notes.txt" "" "X")
      (sample.locked [(go "notes.txt", go "ab")])
      = .ret (.error (.lib (.failure (go "open notes.txt: permission denied") false)))
          (sample.locked [(go "notes.txt", go "ab")]) := rfl
  rw [h2] at h
  injection h with h1 _
  cases h1

/-- C10, amended: on an existing file with content `c`, for an input with a
non-empty path, an empty `old_str` and a non-empty `new_str`, `EditFile` never
reports "old_str not found in file": it calls `os.WriteFile` with `c` in which
`new_str` stands before every rune of `c` and once more at the end (k+1 copies
for the k runes `utf8.RuneCountInString` counts; "ab" with "X" gives "XaXbX"),
and returns "OK" when that write succeeds and the failure of the write
otherwise. -/
theorem EditFile_empty_old_inserts (env : Env W R T) (input : RawMessage) (w : W)
    (e : EditFileInput) (c : GoString)
    (hin : EditFileInput.unmarshal env input = .ok e) (hpath : e.Path ≠ [])
    (hold : e.OldStr = []) (hnew : e.NewStr ≠ [])
    (hfile : env.ReadFile e.Path w = .ok c) :
    (∀ w', EditFile env input w
        ≠ .ret (.error (.errorf (go "old_str not found in file"))) w')
    ∧ EditFile env input w =
        (match env.WriteFile e.Path
            ((utf8.runes c).flatMap (fun r => e.NewStr ++ r) ++ e.NewStr) 0o644 w with
         | (some err, w1) => .ret (.error (.lib err)) w1
         | (none, w1) => .ret (.ok (go "OK")) w1)
    ∧ (utf8.runes c).flatten = c
    ∧ (∀ r ∈ utf8.runes c, r ≠ [])
    ∧ (utf8.runes c).length = utf8.RuneCountInString c
    ∧ (c = go "ab" → e.NewStr = go "X" →
        (utf8.runes c).flatMap (fun r => e.NewStr ++ r) ++ e.NewStr = go "XaXbX") := by
  have hne : e.OldStr ≠ e.NewStr := by
    rw [hold]
    exact fun h => hnew h.symm
  have hc : ¬ (c = strings.Replace c e.OldStr e.NewStr (-1) ∧ e.OldStr ≠ []) :=
    fun h => h.2 hold
  have key := EditFile_existing env input w e c hin hpath hne hfile
  rw [if_neg hc, hold, strings.Replace_empty hnew] at key
  refine ⟨?_, key, utf8.runes_flatten c, fun r hr => utf8.runesFuel_ne_nil _ _ r hr,
    (utf8.RuneCountInString_eq c).symm, ?_⟩
  · intro w' h
    rw [key] at h
    split at h
    · injection h with h1 _
      injection h1 with h1
      cases h1
    · cases h
  · intro h1 h2
    rw [h1, h2]
    decide

theorem EditFile_empty_old_inserts_witness :
    EditFile sample.env (sample.editPayload "notes.txt" "" "X") (sample.world (go "ab"))
      = .ret (.ok (go "OK")) (sample.world (go "XaXbX")) :=
  have h := (EditFile_empty_old_inserts sample.env (sample.editPayload "notes.txt" "" "X")
    (sample.world (go "ab")) ⟨go "notes.txt", go "", go "X"⟩ (go "ab")
    rfl (by decide) rfl (by decide) rfl)
  h.2.1.trans rfl

end edit

section loop

variable {W I : Type}

theorem findTool_none (name : GoString) :
    ∀ tools : List (ToolDefinition W), (∀ tool ∈ tools, tool.Name ≠ name) →
      findTool name tools = none := by
  intro tools
  induction tools with
  | nil => intro _; rfl
  | cons t rest ih =>
    intro h
    rw [findTool, if_neg (h t (List.mem_cons_self _ _))]
    exact ih (fun tool ht => h tool (List.mem_cons_of_mem _ ht))

/-- A block `executeTool` returns is a tool-result block with the call id it
was given. -/
theorem executeTool_callID (a : Agent W I) (id name : GoString) (input : RawMessage) (w w1 : W)
    (result : ContentBlockParam) (out : List Event)
    (h : a.executeTool id name input w = .done result w1 out) :
    result.callID = some id := by
  unfold Agent.executeTool at h
  split at h
  · injection h with h1 _ _
    rw [← h1]
    rfl
  · simp only at h
    split at h
    · cases h
    · injection h with h1 _ _
      rw [← h1]
      rfl
    · injection h with h1 _ _
      rw [← h1]
      rfl

/-- The inner loop of `Run` appends one tool-result block per tool-use block,
in order, each with the call id of its tool-use block. -/
theorem dispatch_callIDs (a : Agent W I) :
    ∀ (content : List ContentBlock) (acc : List ContentBlockParam) (w : W) (out : List Event)
      (res : List ContentBlockParam) (w' : W) (out' : List Event),
      a.dispatch content acc w out = .ok (res, w', out') →
      ∃ blocks, res = acc ++ blocks
        ∧ blocks.map ContentBlockParam.callID
          = (content.filter (fun c => c.Type_ = go "tool_use")).map (fun c => some c.ID) := by
  intro content
  induction content with
  | nil =>
    intro acc w out res w' out' h
    rw [Agent.dispatch] at h
    injection h with h
    injection h with h1 _
    exact ⟨[], by simp [h1], rfl⟩
  | cons c rest ih =>
    intro acc w out res w' out' h
    rw [Agent.dispatch] at h
    split at h
    · rename_i ht
      have hnt : ¬ c.Type_ = go "tool_use" := by
        rw [ht]; decide
      obtain ⟨blocks, h1, h2⟩ := ih _ _ _ _ _ _ h
      exact ⟨blocks, h1, by simp [List.filter_cons, hnt, h2]⟩
    · split at h
      · rename_i ht
        split at h
        · cases h
        · rename_i result w1 out1 hex
          obtain ⟨blocks, h1, h2⟩ := ih _ _ _ _ _ _ h
          refine ⟨result :: blocks, by simp [h1], ?_⟩
          have hid := executeTool_callID a _ _ _ _ _ _ _ hex
          simp [List.filter_cons, ht, h2, hid]
      · rename_i ht
        obtain ⟨blocks, h1, h2⟩ := ih _ _ _ _ _ _ h
        exact ⟨blocks, h1, by simp [List.filter_cons, ht, h2]⟩

/-- A pass of the loop of `Run` that leads to a next pass: it sent a
conversation, received a model turn and ran the inner loop to its end. -/
theorem iteration_next (a : Agent W I) (s s' : RunState W I) (h : a.iteration s = .next s') :
    ∃ conversation message toolResults,
      a.request s = some conversation ∧ a.reply s = some message
      ∧ toolResults.map ContentBlockParam.callID = message.toolUses.map (fun c => some c.ID)
      ∧ (toolResults = [] →
          s'.conversation = conversation ++ [message.ToParam] ∧ s'.readUserInput = true)
      ∧ (toolResults ≠ [] →
          s'.conversation = conversation ++ [message.ToParam, NewUserMessage toolResults]
          ∧ s'.readUserInput = false) := by
  unfold Agent.iteration at h
  split at h
  · cases h
  · rename_i conversation input out hacq
    simp only at h
    split at h
    · cases h
    · rename_i message w1 hrun
      split at h
      · cases h
      · rename_i toolResults w2 out2 hd
        obtain ⟨blocks, hb1, hb2⟩ := dispatch_callIDs a _ _ _ _ _ _ _ hd
        simp only [List.nil_append] at hb1
        subst hb1
        refine ⟨conversation, message, toolResults, ?_, ?_, hb2, ?_, ?_⟩
        · unfold Agent.request
          rw [hacq]
        · unfold Agent.reply Agent.request
          rw [hacq]
          simp only
          rw [hrun]
        · intro h0
          subst h0
          simp only [List.length_nil, if_true] at h
          injection h with h
          subst h
          exact ⟨rfl, rfl⟩
        · intro h0
          have hl : ¬ toolResults.length = 0 := fun hl => h0 (List.length_eq_zero.mp hl)
          rw [if_neg hl] at h
          injection h with h
          subst h
          exact ⟨by simp, rfl⟩

theorem acquire_out (a : Agent W I) (s : RunState W I) (h : s.readUserInput = true) :
    (a.acquire s).2
      = s.out ++ [Event.print (go "\x1b[94mYou\x1b[0m: "), Event.getUserMessage] := by
  unfold Agent.acquire
  rw [if_pos h]
  rcases a.getUserMessage s.input with ⟨⟨userInput, ok⟩, input1⟩
  cases ok <;> rfl

theorem acquire_resume (a : Agent W I) (s : RunState W I) (h : s.readUserInput = false) :
    a.acquire s = (some (s.conversation, s.input), s.out) := by
  unfold Agent.acquire
  rw [h]
  rfl

/-- The pass that starts in `s` calls `getUserMessage` before its transport
call exactly when `readUserInput` is set; otherwise the transport call, with
the conversation as it stands, is the first thing it does. -/
theorem opening_getUserMessage (a : Agent W I) (s : RunState W I) :
    (Event.getUserMessage ∈ a.opening s ↔ s.readUserInput = true)
    ∧ (s.readUserInput = false → a.opening s = [Event.transport s.conversation]) := by
  cases hr : s.readUserInput with
  | false =>
    have h := acquire_resume a s hr
    unfold Agent.opening
    rw [h]
    simp
  | true =>
    have h := acquire_out a s hr
    unfold Agent.opening
    rcases hacq : a.acquire s with ⟨x, out⟩
    rw [hacq] at h
    simp only at h
    subst h
    cases x with
    | none => simp
    | some p => simp

/-- The inner loop of `Run` only adds to what has been printed. -/
theorem dispatch_out (a : Agent W I) :
    ∀ (content : List ContentBlock) (acc : List ContentBlockParam) (w : W) (out : List Event)
      (res : List ContentBlockParam) (w' : W) (out' : List Event),
      a.dispatch content acc w out = .ok (res, w', out') → ∃ rest, out' = out ++ rest := by
  intro content
  induction content with
  | nil =>
    intro acc w out res w' out' h
    rw [Agent.dispatch] at h
    injection h with h
    injection h with _ h2
    injection h2 with _ h3
    exact ⟨[], by simp [h3]⟩
  | cons c rest ih =>
    intro acc w out res w' out' h
    rw [Agent.dispatch] at h
    split at h
    · obtain ⟨r, hr⟩ := ih _ _ _ _ _ _ h
      exact ⟨_, by rw [hr, List.append_assoc]⟩
    · split at h
      · split at h
        · cases h
        · obtain ⟨r, hr⟩ := ih _ _ _ _ _ _ h
          exact ⟨_, by rw [hr, List.append_assoc]⟩
      · exact ih _ _ _ _ _ _ h

/-- Nor does it lose any of it when an executor panics. -/
theorem dispatch_panic_out (a : Agent W I) :
    ∀ (content : List ContentBlock) (acc : List ContentBlockParam) (w : W) (out : List Event)
      (v : GoError) (out' : List Event),
      a.dispatch content acc w out = .error (v, out') → ∃ rest, out' = out ++ rest := by
  intro content
  induction content with
  | nil =>
    intro acc w out v out' h
    rw [Agent.dispatch] at h
    cases h
  | cons c rest ih =>
    intro acc w out v out' h
    rw [Agent.dispatch] at h
    split at h
    · obtain ⟨r, hr⟩ := ih _ _ _ _ _ h
      exact ⟨_, by rw [hr, List.append_assoc]⟩
    · split at h
      · split at h
        · injection h with h
          injection h with _ h2
          exact ⟨_, h2.symm⟩
        · obtain ⟨r, hr⟩ := ih _ _ _ _ _ h
          exact ⟨_, by rw [hr, List.append_assoc]⟩
      · exact ih _ _ _ _ _ h

/-- Whatever way a pass ends, what it has printed and called starts with what
was there before, followed by its opening. -/
theorem iteration_opening (a : Agent W I) (s : RunState W I) :
    ∃ rest, (a.iteration s).out = s.out ++ a.opening s ++ rest := by
  have hpre : ∃ pre, (a.acquire s).2 = s.out ++ pre := by
    cases hr : s.readUserInput with
    | true => exact ⟨_, acquire_out a s hr⟩
    | false =>
      rw [acquire_resume a s hr]
      exact ⟨[], by simp⟩
  obtain ⟨pre, hpre⟩ := hpre
  unfold Agent.iteration Agent.opening
  rcases hacq : a.acquire s with ⟨x, out⟩
  rw [hacq] at hpre
  simp only at hpre
  subst hpre
  cases x with
  | none => exact ⟨[], by simp [Step.out]⟩
  | some p =>
    obtain ⟨conversation, input⟩ := p
    simp only
    split
    · exact ⟨[], by simp [Step.out]⟩
    · split
      · rename_i v out2 hd
        obtain ⟨r, hr⟩ := dispatch_panic_out a _ _ _ _ _ _ hd
        exact ⟨r, by simp [Step.out, hr]⟩
      · rename_i toolResults w2 out2 hd
        obtain ⟨r, hr⟩ := dispatch_out a _ _ _ _ _ _ _ hd
        split
        · exact ⟨r, by simp [Step.out, hr]⟩
        · exact ⟨r, by simp [Step.out, hr]⟩

/-- C6: for a tool name that is the `Name` of no tool of the registry (an
exact comparison of the two strings), `executeTool` calls no executor (the
world is as before and nothing is printed) and returns, rather than panics,
with the one tool-result block that carries the call id, the text "tool not
found" and the error flag. -/
theorem executeTool_unknown (a : Agent W I) (id name : GoString) (input : RawMessage) (w : W)
    (h : ∀ tool ∈ a.tools, tool.Name ≠ name) :
    a.executeTool id name input w
      = .done (.toolResult id (go "tool not found") true) w [] := by
  unfold Agent.executeTool
  rw [findTool_none name a.tools h]
  rfl

theorem executeTool_unknown_witness :
    sample.agent.executeTool (go "call_2") (go "Read_File") (go "\x7b\"path\":\"notes.txt\"\x7d")
        (sample.world (go "a"))
      = .done (.toolResult (go "call_2") (go "tool not found") true) (sample.world (go "a")) [] :=
  executeTool_unknown sample.agent (go "call_2") (go "Read_File")
    (go "\x7b\"path\":\"notes.txt\"\x7d") (sample.world (go "a")) (by decide)

/-- C7: when a pass of the loop of `Run` leads to a next pass, it has received
a model turn, and the next pass calls `getUserMessage` if and only if that
turn has no tool-use block.  With no tool-use block the transcript ends with
the model turn; with one or more it ends with the model turn and one
user-role message of the tool results, and the next pass starts with the
transport call on that transcript, without asking for input.  (The opening of
a pass is what it prints and calls first, whatever way it ends.) -/
theorem Run_requests_input_iff (a : Agent W I) (s s' : RunState W I)
    (h : a.iteration s = .next s') :
    ∃ conversation message,
      a.request s = some conversation ∧ a.reply s = some message
      ∧ (Event.getUserMessage ∈ a.opening s' ↔ message.toolUses = [])
      ∧ (message.toolUses = [] → s'.conversation = conversation ++ [message.ToParam])
      ∧ (message.toolUses ≠ [] →
          (∃ toolResults, toolResults ≠ []
            ∧ s'.conversation = conversation ++ [message.ToParam, NewUserMessage toolResults])
          ∧ a.opening s' = [Event.transport s'.conversation])
      ∧ ∃ rest, (a.iteration s').out = s'.out ++ a.opening s' ++ rest := by
  obtain ⟨conversation, message, toolResults, h1, h2, h3, h4, h5⟩ := iteration_next a s s' h
  have hnil : toolResults = [] ↔ message.toolUses = [] := by
    constructor
    · intro h0
      rw [h0] at h3
      exact List.map_eq_nil_iff.mp h3.symm
    · intro h0
      rw [h0] at h3
      exact List.map_eq_nil_iff.mp h3
  have hop := opening_getUserMessage a s'
  refine ⟨conversation, message, h1, h2, ?_, ?_, ?_, iteration_opening a s'⟩
  · rw [hop.1, ← hnil]
    constructor
    · intro hr
      by_contra h0
      have := (h5 h0).2
      rw [hr] at this
      cases this
    · intro h0
      exact (h4 h0).2
  · intro h0
    exact (h4 (hnil.mpr h0)).1
  · intro h0
    have hne : toolResults ≠ [] := fun h => h0 (hnil.mp h)
    exact ⟨⟨toolResults, hne, (h5 hne).1⟩, hop.2 (h5 hne).2⟩

theorem Run_requests_input_iff_witness :
    sample.agent.iteration sample.first = .next sample.second
    ∧ sample.agent.iteration sample.second = .next sample.third
    ∧ sample.agent.opening sample.second = [Event.transport sample.second.conversation]
    ∧ Event.getUserMessage ∈ sample.agent.opening sample.third
    ∧ (∃ conversation message,
        sample.agent.request sample.second = some conversation
        ∧ sample.agent.reply sample.second = some message
        ∧ (Event.getUserMessage ∈ sample.agent.opening sample.third ↔ message.toolUses = [])
        ∧ (message.toolUses = [] →
            sample.third.conversation = conversation ++ [message.ToParam])
        ∧ (message.toolUses ≠ [] →
            (∃ toolResults, toolResults ≠ []
              ∧ sample.third.conversation
                = conversation ++ [message.ToParam, NewUserMessage toolResults])
            ∧ sample.agent.opening sample.third
              = [Event.transport sample.third.conversation])
        ∧ ∃ rest, (sample.agent.iteration sample.third).out
            = sample.third.out ++ sample.agent.opening sample.third ++ rest) :=
  ⟨rfl, rfl, rfl, by decide,
    Run_requests_input_iff sample.agent sample.second sample.third rfl⟩

/-- C8: when a pass of the loop of `Run` leads to a next pass (no executor has
panicked) and its model turn has tool-use blocks, the user-role message
appended after the model turn has as many tool-result blocks as the turn has
tool-use blocks, and the i-th of them carries the call id of the i-th tool-use
block, whatever the dispatches did; after a turn without tool-use blocks no
such message is appended. -/
theorem Run_tool_results_match (a : Agent W I) (s s' : RunState W I)
    (h : a.iteration s = .next s') :
    ∃ conversation message,
      a.request s = some conversation ∧ a.reply s = some message
      ∧ (message.toolUses = [] → s'.conversation = conversation ++ [message.ToParam])
      ∧ (message.toolUses ≠ [] →
          ∃ toolResults,
            s'.conversation = conversation ++ [message.ToParam, NewUserMessage toolResults]
            ∧ toolResults.length = message.toolUses.length
            ∧ ∀ (i : Nat) (h1 : i < toolResults.length) (h2 : i < message.toolUses.length),
                (toolResults.get ⟨i, h1⟩).callID = some (message.toolUses.get ⟨i, h2⟩).ID) := by
  obtain ⟨conversation, message, toolResults, h1, h2, h3, h4, h5⟩ := iteration_next a s s' h
  refine ⟨conversation, message, h1, h2, ?_, ?_⟩
  · intro h0
    rw [h0] at h3
    exact (h4 (List.map_eq_nil_iff.mp h3)).1
  intro h0
  have hne : toolResults ≠ [] := by
    intro hnil
    rw [hnil] at h3
    exact h0 (List.map_eq_nil_iff.mp h3.symm)
  have hlen : toolResults.length = message.toolUses.length := by
    have := congrArg List.length h3
    simpa using this
  refine ⟨toolResults, (h5 hne).1, hlen, ?_⟩
  intro i hi1 hi2
  have hget : (toolResults.map ContentBlockParam.callID)[i]? 
      = (message.toolUses.map (fun c => some c.ID))[i]? := by rw [h3]
  simp only [List.getElem?_map, List.getElem?_eq_getElem hi1, List.getElem?_eq_getElem hi2,
    Option.map_some'] at hget
  injection hget

theorem Run_tool_results_match_witness :
    sample.agent.iteration sample.first = .next sample.second
    ∧ sample.second.conversation.getLast? = some (NewUserMessage
        [.toolResult (go "call_1") (go "ababab") false,
         .toolResult (go "call_2") (go "tool not found") true])
    ∧ (∃ conversation message,
        sample.agent.request sample.first = some conversation
        ∧ sample.agent.reply sample.first = some message
        ∧ (message.toolUses = [] →
            sample.second.conversation = conversation ++ [message.ToParam])
        ∧ (message.toolUses ≠ [] →
            ∃ toolResults,
              sample.second.conversation
                = conversation ++ [message.ToParam, NewUserMessage toolResults]
              ∧ toolResults.length = message.toolUses.length
              ∧ ∀ (i : Nat) (h1 : i < toolResults.length) (h2 : i < message.toolUses.length),
                  (toolResults.get ⟨i, h1⟩).callID
                    = some (message.toolUses.get ⟨i, h2⟩).ID)) :=
  ⟨rfl, rfl, Run_tool_results_match sample.agent sample.first sample.second rfl⟩

end loop

section malformed

variable {W R T I : Type}

/-- The line `executeTool` prints before it calls the executor. -/
theorem executeTool_found (a : Agent W I) (toolDef : ToolDefinition W) (id name : GoString)
    (input : RawMessage) (w : W) (h : findTool name a.tools = some toolDef) :
    a.executeTool id name input w =
      match toolDef.Function input w with
      | .panic v => .panic v
          [Event.print (go "\x1b[92mtool\x1b[0m: " ++ name ++ go "(" ++ input ++ go ")\n")]
      | .ret (.error err) w1 => .done (NewToolResultBlock id err.Error true) w1
          [Event.print (go "\x1b[92mtool\x1b[0m: " ++ name ++ go "(" ++ input ++ go ")\n")]
      | .ret (.ok response) w1 => .done (NewToolResultBlock id response false) w1
          [Event.print (go "\x1b[92mtool\x1b[0m: " ++ name ++ go "(" ++ input ++ go ")\n")] := by
  unfold Agent.executeTool
  rw [h]

/-- C9, as it stands, fails: `list_files` is registered, is not `read_file`,
and on a payload that is not JSON `executeTool` panics with the failure of
the deserialization instead of returning an error block. -/
theorem executeTool_list_files_panics :
    sample.Unmarshal (go "\x7b") [go "path"]
      = .error (.failure (go "unexpected end of JSON input") false)
    ∧ sample.agent.executeTool (go "call_1") (go "list_files") (go "\x7b") (sample.world (go "a"))
      = .panic (.lib (.failure (go "unexpected end of JSON input") false))
          [Event.print (go "\x1b[92mtool\x1b[0m: list_files(\x7b)\n")] :=
  ⟨rfl, rfl⟩

/-- C9, amended: in the registry of `main`, for `edit_file`, `make_dir`,
`delete_dir`, `git_add` and `git_commit` a payload that fails to deserialize
into the input of the tool makes `executeTool` return, in an unchanged world,
the error block with the call id and the message of the deserialization
failure; `read_file` and `list_files` both panic with that failure;
`git_status`, `git_push` and `git_pull` never deserialize their payload. -/
theorem executeTool_malformed (env : Env W R T) (a : Agent W I) (ha : a.tools = tools env)
    (id : GoString) (input : RawMessage) (w : W) (err : LibError) :
    (env.Unmarshal input EditFileInput.tags = .error err →
      ∃ out, a.executeTool id (go "edit_file") input w
        = .done (.toolResult id (GoError.lib err).Error true) w out)
    ∧ (env.Unmarshal input [go "path"] = .error err →
      (∃ out, a.executeTool id (go "make_dir") input w
        = .done (.toolResult id (GoError.lib err).Error true) w out)
      ∧ (∃ out, a.executeTool id (go "delete_dir") input w
        = .done (.toolResult id (GoError.lib err).Error true) w out)
      ∧ (∃ out, a.executeTool id (go "git_add") input w
        = .done (.toolResult id (GoError.lib err).Error true) w out)
      ∧ (∃ out, a.executeTool id (go "read_file") input w = .panic (.lib err) out)
      ∧ (∃ out, a.executeTool id (go "list_files") input w = .panic (.lib err) out))
    ∧ (env.Unmarshal input [go "message"] = .error err →
      ∃ out, a.executeTool id (go "git_commit") input w
        = .done (.toolResult id (GoError.lib err).Error true) w out)
    ∧ (∀ other : RawMessage,
        GitStatus env input w = GitStatus env other w
        ∧ GitPush env input w = GitPush env other w
        ∧ GitPull env input w = GitPull env other w) := by
  have hedit : findTool (go "edit_file") a.tools = some (EditFileDefinition env) := by
    rw [ha]; rfl
  have hmake : findTool (go "make_dir") a.tools = some (MakeDirDefinition env) := by
    rw [ha]; rfl
  have hdel : findTool (go "delete_dir") a.tools = some (DeleteDirDefinition env) := by
    rw [ha]; rfl
  have hadd : findTool (go "git_add") a.tools = some (GitAddDefinition env) := by
    rw [ha]; rfl
  have hcommit : findTool (go "git_commit") a.tools = some (GitCommitDefinition env) := by
    rw [ha]; rfl
  have hread : findTool (go "read_file") a.tools = some (ReadFileDefinition env) := by
    rw [ha]; rfl
  have hlist : findTool (go "list_files") a.tools = some (ListFilesDefinition env) := by
    rw [ha]; rfl
  refine ⟨?_, ?_, ?_, fun other => ⟨rfl, rfl, rfl⟩⟩
  · intro h
    rw [executeTool_found a _ id _ input w hedit]
    simp only [EditFileDefinition, EditFile, EditFileInput.unmarshal, h]
    exact ⟨_, rfl⟩
  · intro h
    refine ⟨?_, ?_, ?_, ?_, ?_⟩
    · rw [executeTool_found a _ id _ input w hmake]
      simp only [MakeDirDefinition, MakeDir, unmarshalPath, h]
      exact ⟨_, rfl⟩
    · rw [executeTool_found a _ id _ input w hdel]
      simp only [DeleteDirDefinition, DeleteDir, unmarshalPath, h]
      exact ⟨_, rfl⟩
    · rw [executeTool_found a _ id _ input w hadd]
      simp only [GitAddDefinition, GitAdd, unmarshalPath, h]
      exact ⟨_, rfl⟩
    · rw [executeTool_found a _ id _ input w hread]
      simp only [ReadFileDefinition, ReadFile, unmarshalPath, h]
      exact ⟨_, rfl⟩
    · rw [executeTool_found a _ id _ input w hlist]
      simp only [ListFilesDefinition, ListFiles, unmarshalPath, h]
      exact ⟨_, rfl⟩
  · intro h
    rw [executeTool_found a _ id _ input w hcommit]
    simp only [GitCommitDefinition, GitCommit, GitCommitInput.unmarshal, h]
    exact ⟨_, rfl⟩

theorem executeTool_malformed_witness :
    (∃ out, sample.agent.executeTool (go "call_1") (go "edit_file") (go "\x7b")
        (sample.world (go "a"))
      = .done (.toolResult (go "call_1") (go "unexpected end of JSON input") true)
          (sample.world (go "a")) out)
    ∧ (∃ out, sample.agent.executeTool (go "call_1") (go "read_file") (go "\x7b")
        (sample.world (go "a"))
      = .panic (.lib (.failure (go "unexpected end of JSON input") false)) out) :=
  have h := executeTool_malformed sample.env sample.agent rfl (go "call_1") (go "\x7b")
    (sample.world (go "a")) (.failure (go "unexpected end of JSON input") false)
  ⟨h.1 rfl, (h.2.1 rfl).2.2.2.1⟩

end malformed
